import Mathlib

/-!
Shallow embedding of the session-orchestration engine of `server.js`
(one-two-tier MCQ classroom tool).

JavaScript objects used as string-keyed maps (`sessions`, `session.students`,
`question.answers`) are modelled as insertion-ordered association lists
`List (String × α)`: property assignment updates an existing key in place or
appends a new key, `delete` removes the key, `Object.values` / `for ... in`
enumerate in insertion order.  WebSocket connections are modelled as opaque
numeric identifiers that are always open; randomly generated session codes and
student ids (`crypto.randomBytes(3).toString("hex")`) are oracle inputs
carried on the inbound message.  Wall-clock timestamps are an oracle string
argument.  Outbound `sendJSON` / `ws.close()` calls become an explicit event
list returned next to the updated registry.
-/

set_option maxHeartbeats 1000000

namespace MCQServer

/-- Session stage: `'WAITING' | 'MCQ' | 'EXPLANATION' | 'STOPPED'`. -/
inductive SStage where
  | WAITING
  | MCQ
  | EXPLANATION
  | STOPPED
deriving DecidableEq

/-- Per-question stage: `'MCQ' | 'EXPLANATION' | 'DONE'`. -/
inductive QStage where
  | MCQ
  | EXPLANATION
  | DONE
deriving DecidableEq

/-- One answer record: `{ username, mcqAnswer, explanation }`;
`mcqAnswer` is `number | null`, modelled as `Option Nat`. -/
structure Answer where
  username : String
  mcqAnswer : Option Nat
  explanation : String
deriving DecidableEq

/-- One question: `{ questionNumber, questionText, mcqOptions, stage, answers }`. -/
structure Question where
  questionNumber : Nat
  questionText : String
  mcqOptions : Nat
  stage : QStage
  answers : List (String × Answer)
deriving DecidableEq

/-- One student entry: `{ username, ws }`. -/
structure Student where
  username : String
  ws : Nat
deriving DecidableEq

/-- One session: `{ teacher, stage, currentQuestionIndex, questions, students }`.
`currentQuestionIndex` is a JS number initialised to `-1`, hence `Int`. -/
structure Session where
  teacher : Option Nat
  stage : SStage
  currentQuestionIndex : Int
  questions : List Question
  students : List (String × Student)
deriving DecidableEq

/-- The `sessions` registry object, keyed by session code. -/
abbrev Registry := List (String × Session)

/-- JS property read `m[k]`: first entry with the key, if any. -/
def jsGet (m : List (String × α)) (k : String) : Option α :=
  match m with
  | [] => none
  | (k2, v) :: rest => if k2 = k then some v else jsGet rest k

/-- JS property write `m[k] = v`: update in place if the key exists,
append at the end otherwise. -/
def jsSet (m : List (String × α)) (k : String) (v : α) : List (String × α) :=
  match m with
  | [] => [(k, v)]
  | (k2, v2) :: rest => if k2 = k then (k2, v) :: rest else (k2, v2) :: jsSet rest k v

/-- JS field mutation `m[k].f = ...` when the key is known to be present. -/
def jsModify (m : List (String × α)) (k : String) (f : α → α) : List (String × α) :=
  match m with
  | [] => []
  | (k2, v) :: rest => if k2 = k then (k2, f v) :: rest else (k2, v) :: jsModify rest k f

/-- JS `delete m[k]`. -/
def jsDelete (m : List (String × α)) (k : String) : List (String × α) :=
  m.filter (fun p => p.1 ≠ k)

/-- `Object.keys(m)` (insertion order). -/
def jsKeys (m : List (String × α)) : List String :=
  m.map Prod.fst

/-- `Object.values(m)` (insertion order). -/
def jsValues (m : List (String × α)) : List α :=
  m.map Prod.snd

/-- `getCurrentQuestion`: `null` when `idx < 0 || idx >= questions.length`,
else `questions[idx]`. -/
def getCurrentQuestion (s : Session) : Option Question :=
  if s.currentQuestionIndex < 0 ∨ (s.questions.length : Int) ≤ s.currentQuestionIndex then
    none
  else
    s.questions.get? s.currentQuestionIndex.toNat

/-- In-place mutation of the current question object (used only where the
current question exists). -/
def setCurrentQuestion (s : Session) (q : Question) : Session :=
  { s with questions := s.questions.set s.currentQuestionIndex.toNat q }

/-- JS string truthiness fallback `s || ""`. -/
def jsOrEmpty (s : String) : String :=
  if s = "" then "" else s

/-- `String(val).replace(/"/g, '""')`: double every internal double quote. -/
def escapeQuotes (s : String) : String :=
  String.mk (s.data.flatMap (fun c => if c = '"' then ['"', '"'] else [c]))

/-- `ans.mcqAnswer || ""` followed by `String(...)`: `null` and `0` are both
falsy in JS and render as the empty string; any other option index renders
as its decimal representation. -/
def mcqAnswerField (a : Option Nat) : String :=
  match a with
  | none => ""
  | some n => if n = 0 then "" else toString n

/-- `generateCSV`: header row plus one row per (question, answer record) pair,
each field double-quoted with internal quotes doubled, rows joined by `\n`. -/
def generateCSV (session : Session) : String :=
  let rows : List (List String) :=
    [["Question #", "Question Text", "Username", "MCQ Answer", "Explanation"]] ++
      session.questions.flatMap (fun q =>
        q.answers.map (fun p =>
          [toString q.questionNumber, q.questionText,
           jsOrEmpty p.2.username, mcqAnswerField p.2.mcqAnswer,
           jsOrEmpty p.2.explanation]))
  String.intercalate "\n"
    (rows.map (fun r =>
      String.intercalate "," (r.map (fun val => "\"" ++ escapeQuotes val ++ "\""))))

/-- Snapshot payload of a `TEACHER_VIEW_UPDATE` event. -/
structure TeacherSnapshot where
  sessionCode : String
  stage : SStage
  questionText : String
  mcqOptions : Nat
  answers : List Answer
  studentNames : List String
deriving DecidableEq

/-- Payload sent by `broadcastTeacherView`: defaults when there is no current
question, otherwise the current question's text, option count and flattened
answer list, plus the roster of student names. -/
def teacherSnapshot (sessionCode : String) (s : Session) : TeacherSnapshot :=
  match getCurrentQuestion s with
  | some q =>
      { sessionCode := sessionCode, stage := s.stage, questionText := q.questionText,
        mcqOptions := q.mcqOptions, answers := jsValues q.answers,
        studentNames := (jsValues s.students).map Student.username }
  | none =>
      { sessionCode := sessionCode, stage := s.stage, questionText := "",
        mcqOptions := 0, answers := [],
        studentNames := (jsValues s.students).map Student.username }

/-- Outbound effects of a handler: `sendJSON` payloads and `ws.close()` calls. -/
inductive Event where
  | sessionCreated (dst : Nat) (sessionCode : String)
  | mcqStarted (dst : Nat) (questionText : String) (options : Nat)
  | showExplanationInput (dst : Nat)
  | quizStopped (dst : Nat)
  | teacherViewUpdate (dst : Nat) (snap : TeacherSnapshot)
  | csvData (dst : Nat) (csv : String) (filename : String)
  | joinedSession (dst : Nat) (studentId : String) (sessionCode : String) (stage : SStage)
  | errorEvent (dst : Nat) (message : String)
  | closeConn (ws : Nat)
deriving DecidableEq

/-- `broadcastToSession`: teacher first (if attached), then every student in
insertion order. -/
def broadcastToSession (reg : Registry) (sessionCode : String) (mk : Nat → Event) :
    List Event :=
  match jsGet reg sessionCode with
  | none => []
  | some session =>
      (match session.teacher with
       | some t => [mk t]
       | none => []) ++
      (jsValues session.students).map (fun stu => mk stu.ws)

/-- `broadcastTeacherView`: a single `TEACHER_VIEW_UPDATE` to the teacher
connection, skipped when the session or its teacher is missing. -/
def broadcastTeacherView (reg : Registry) (sessionCode : String) : List Event :=
  match jsGet reg sessionCode with
  | none => []
  | some session =>
      match session.teacher with
      | none => []
      | some t => [Event.teacherViewUpdate t (teacherSnapshot sessionCode session)]

/-- Inbound messages; `freshCode` and `freshId` are the oracle values produced
by `crypto.randomBytes(3).toString("hex")` inside the corresponding handlers. -/
inductive ClientMsg where
  | teacherCreateSession (freshCode : String)
  | teacherStartMCQ (sessionCode : String) (questionText : String) (options : Nat)
  | teacherNextExplanation (sessionCode : String)
  | teacherStopQuiz (sessionCode : String)
  | teacherClosePage (sessionCode : String)
  | teacherDownloadCSV (sessionCode : String)
  | teacherRejoinSession (sessionCode : String)
  | studentJoinSession (sessionCode : String) (username : String) (freshId : String)
  | studentSubmitMCQ (sessionCode : String) (studentId : String) (answer : Nat)
  | studentExplanationUpdate (sessionCode : String) (studentId : String) (explanation : String)
deriving DecidableEq

/-- The `TEACHER_START_MCQ` block that marks the previous question `DONE`
when it was in `EXPLANATION` stage (`if (session.currentQuestionIndex >= 0)
{ ... }`). -/
def markPrevDone (session : Session) : Session :=
  if 0 ≤ session.currentQuestionIndex then
    match getCurrentQuestion session with
    | some prevQ =>
        if prevQ.stage = QStage.EXPLANATION then
          setCurrentQuestion session { prevQ with stage := QStage.DONE }
        else session
    | none => session
  else session

/-- The `ws.on("message")` dispatcher: one step of the registry, returning the
updated registry and the outbound events in emission order.  `ws` is the
calling connection, `ts` the `getTimestampString()` oracle. -/
def handleMessage (reg : Registry) (ws : Nat) (ts : String) (msg : ClientMsg) :
    Registry × List Event :=
  match msg with
  | .teacherCreateSession code =>
      let fresh : Session :=
        { teacher := some ws, stage := .WAITING, currentQuestionIndex := -1,
          questions := [], students := [] }
      (jsSet reg code fresh, [.sessionCreated ws code])
  | .teacherStartMCQ sessionCode questionText options =>
      match jsGet reg sessionCode with
      | none => (reg, [])
      | some session =>
          let session := { session with stage := SStage.MCQ }
          let session := markPrevDone session
          let newQnum := session.questions.length + 1
          let questionObj : Question :=
            { questionNumber := newQnum, questionText := jsOrEmpty questionText,
              mcqOptions := options, stage := QStage.MCQ,
              answers :=
                session.students.map (fun p =>
                  (p.1, { username := p.2.username, mcqAnswer := none, explanation := "" })) }
          let session :=
            { session with
              questions := session.questions ++ [questionObj],
              currentQuestionIndex := (session.questions.length : Int) }
          let reg := jsSet reg sessionCode session
          (reg,
            broadcastToSession reg sessionCode
              (fun t => .mcqStarted t questionObj.questionText questionObj.mcqOptions) ++
            broadcastTeacherView reg sessionCode)
  | .teacherNextExplanation sessionCode =>
      match jsGet reg sessionCode with
      | none => (reg, [])
      | some session =>
          let session := { session with stage := SStage.EXPLANATION }
          let session :=
            match getCurrentQuestion session with
            | some curQ =>
                if curQ.stage = QStage.MCQ then
                  setCurrentQuestion session { curQ with stage := QStage.EXPLANATION }
                else session
            | none => session
          let reg := jsSet reg sessionCode session
          (reg,
            broadcastToSession reg sessionCode (fun t => .showExplanationInput t) ++
            broadcastTeacherView reg sessionCode)
  | .teacherStopQuiz sessionCode =>
      match jsGet reg sessionCode with
      | none => (reg, [])
      | some session =>
          let session := { session with stage := SStage.STOPPED }
          let reg := jsSet reg sessionCode session
          (reg,
            broadcastToSession reg sessionCode (fun t => .quizStopped t) ++
            (jsValues session.students).map (fun stu => .closeConn stu.ws) ++
            broadcastTeacherView reg sessionCode)
  | .teacherClosePage sessionCode =>
      match jsGet reg sessionCode with
      | none => (reg, [])
      | some session =>
          let session := { session with stage := SStage.STOPPED }
          let reg := jsSet reg sessionCode session
          let evs :=
            broadcastToSession reg sessionCode (fun t => .quizStopped t) ++
            (jsValues session.students).map (fun stu => .closeConn stu.ws)
          (jsDelete reg sessionCode, evs)
  | .teacherDownloadCSV sessionCode =>
      match jsGet reg sessionCode with
      | none => (reg, [.errorEvent ws "No such session."])
      | some session =>
          (reg,
            [.csvData ws (generateCSV session)
              ("quiz_data_" ++ sessionCode ++ "_" ++ ts ++ ".csv")])
  | .teacherRejoinSession sessionCode =>
      match jsGet reg sessionCode with
      | some session =>
          let reg := jsSet reg sessionCode { session with teacher := some ws }
          (reg, broadcastTeacherView reg sessionCode)
      | none => (reg, [.errorEvent ws "Session code not found"])
  | .studentJoinSession sessionCode username freshId =>
      match jsGet reg sessionCode with
      | none => (reg, [.errorEvent ws "Invalid session code"])
      | some session =>
          let session :=
            { session with
              students := jsSet session.students freshId { username := username, ws := ws } }
          let session :=
            match getCurrentQuestion session with
            | some curQ =>
                setCurrentQuestion session
                  { curQ with
                    answers :=
                      jsSet curQ.answers freshId
                        { username := username, mcqAnswer := none, explanation := "" } }
            | none => session
          let reg := jsSet reg sessionCode session
          (reg,
            [.joinedSession ws freshId sessionCode session.stage] ++
            broadcastTeacherView reg sessionCode)
  | .studentSubmitMCQ sessionCode studentId answer =>
      match jsGet reg sessionCode with
      | none => (reg, [])
      | some session =>
          match getCurrentQuestion session with
          | none => (reg, [])
          | some curQ =>
              let withSlot : Option (List (String × Answer)) :=
                match jsGet curQ.answers studentId with
                | some _ => some curQ.answers
                | none =>
                    match jsGet session.students studentId with
                    | none => none
                    | some stuInfo =>
                        some (jsSet curQ.answers studentId
                          { username := stuInfo.username, mcqAnswer := none, explanation := "" })
              match withSlot with
              | none => (reg, [])
              | some ans =>
                  let curQ :=
                    { curQ with
                      answers := jsModify ans studentId
                        (fun a => { a with mcqAnswer := some answer }) }
                  let reg := jsSet reg sessionCode (setCurrentQuestion session curQ)
                  (reg, broadcastTeacherView reg sessionCode)
  | .studentExplanationUpdate sessionCode studentId explanation =>
      match jsGet reg sessionCode with
      | none => (reg, [])
      | some session =>
          match getCurrentQuestion session with
          | none => (reg, [])
          | some curQ =>
              let withSlot : Option (List (String × Answer)) :=
                match jsGet curQ.answers studentId with
                | some _ => some curQ.answers
                | none =>
                    match jsGet session.students studentId with
                    | none => none
                    | some stuInfo =>
                        some (jsSet curQ.answers studentId
                          { username := stuInfo.username, mcqAnswer := none, explanation := "" })
              match withSlot with
              | none => (reg, [])
              | some ans =>
                  let curQ :=
                    { curQ with
                      answers := jsModify ans studentId
                        (fun a => { a with explanation := explanation }) }
                  let reg := jsSet reg sessionCode (setCurrentQuestion session curQ)
                  (reg, broadcastTeacherView reg sessionCode)

/-- One inbound message together with its connection and timestamp oracle. -/
structure Inbound where
  ws : Nat
  ts : String
  msg : ClientMsg
deriving DecidableEq

/-- Run a sequence of inbound messages through the dispatcher. -/
def runMsgs (reg : Registry) : List Inbound → Registry
  | [] => reg
  | x :: rest => runMsgs (handleMessage reg x.ws x.ts x.msg).1 rest

/-! ## Connection liveness supervisor

The `setInterval` loop at the bottom of `server.js`, as a discrete state
machine: one `supTick` per 30-second timer firing, `supPong` for a `pong`
received from a peer between firings.  Terminated and closed connections are
kept in the list with a flag so that their fate can be stated. -/

/-- `KEEP_ALIVE_INTERVAL = 30_000` ms. -/
def KEEP_ALIVE_INTERVAL : Nat := 30000

/-- `MAX_DURATION = 60 * 60_000` ms. -/
def MAX_DURATION : Nat := 60 * 60000

/-- One websocket as seen by the keep-alive loop. -/
structure SupConn where
  isAlive : Bool
  terminated : Bool
  closed : Bool
deriving DecidableEq

/-- Process-wide supervisor state: accumulated uptime, whether
`clearInterval` has run, and the clients of the websocket server. -/
structure SupState where
  totalUptime : Nat
  stopped : Bool
  clients : List SupConn
deriving DecidableEq

/-- Per-client body of the interval callback:
`if (!ws.isAlive) return ws.terminate(); ws.isAlive = false; ws.ping();`. -/
def tickConn (c : SupConn) : SupConn :=
  if !c.isAlive then { c with terminated := true }
  else { c with isAlive := false }

/-- One firing of the interval: accumulate uptime; at the ceiling close every
client and clear the interval, otherwise probe every client.  A cleared
interval never fires again, so a stopped state is left untouched. -/
def supTick (st : SupState) : SupState :=
  if st.stopped then st
  else
    let up := st.totalUptime + KEEP_ALIVE_INTERVAL
    if MAX_DURATION ≤ up then
      { totalUptime := up, stopped := true,
        clients := st.clients.map (fun c => { c with closed := true }) }
    else
      { totalUptime := up, stopped := st.stopped, clients := st.clients.map tickConn }

/-- `ws.on("pong", ...)` handler on one connection. -/
def SupConn.pongAck (c : SupConn) : SupConn :=
  { c with isAlive := true }

/-- A `pong` from client `i` between firings: `ws.isAlive = true`. -/
def supPong (st : SupState) (i : Nat) : SupState :=
  match st.clients.get? i with
  | some c => { st with clients := st.clients.set i c.pongAck }
  | none => st

/-! ## Interactor ghost state for the answer-count bound

For every session code, a list parallel to `questions` recording, per
question, the participant ids that were present at the question's creation,
joined while it was current, or submitted an MCQ answer to it while it was
current.  This is bookkeeping about the trace only; it does not feed back
into `handleMessage`. -/

abbrev Ghost := List (String × List (List String))

/-- Append `id` to the `i`-th id list, if `i` is in range. -/
def addAt (ls : List (List String)) (i : Nat) (id : String) : List (List String) :=
  match ls.get? i with
  | some l => ls.set i (l ++ [id])
  | none => ls

/-- Ghost transition mirroring `handleMessage` on registry `reg`. -/
def ghostStep (reg : Registry) (g : Ghost) (msg : ClientMsg) : Ghost :=
  match msg with
  | .teacherCreateSession code => jsSet g code []
  | .teacherStartMCQ sessionCode _ _ =>
      match jsGet reg sessionCode with
      | none => g
      | some session =>
          jsModify g sessionCode (fun ls => ls ++ [jsKeys session.students])
  | .teacherClosePage sessionCode =>
      match jsGet reg sessionCode with
      | none => g
      | some _ => jsDelete g sessionCode
  | .studentJoinSession sessionCode _ freshId =>
      match jsGet reg sessionCode with
      | none => g
      | some session =>
          match getCurrentQuestion session with
          | none => g
          | some _ =>
              jsModify g sessionCode
                (fun ls => addAt ls session.currentQuestionIndex.toNat freshId)
  | .studentSubmitMCQ sessionCode studentId _ =>
      match jsGet reg sessionCode with
      | none => g
      | some session =>
          match getCurrentQuestion session with
          | none => g
          | some _ =>
              jsModify g sessionCode
                (fun ls => addAt ls session.currentQuestionIndex.toNat studentId)
  | _ => g

/-- Run the ghost alongside `runMsgs`. -/
def ghostRun (reg : Registry) (g : Ghost) : List Inbound → Ghost
  | [] => g
  | x :: rest => ghostRun (handleMessage reg x.ws x.ts x.msg).1 (ghostStep reg g x.msg) rest

/-! ## Spec-side CSV description (for the refinement claim about the export) -/

/-- Spec wording: every field is double-quoted with internal double quotes
doubled. -/
def specQuote (v : String) : String :=
  "\"" ++ escapeQuotes v ++ "\""

/-- Spec wording: a row is its quoted fields joined by commas. -/
def specRow (r : List String) : String :=
  String.intercalate "," (r.map specQuote)

/-- Spec wording: the fixed header row. -/
def specHeader : List String :=
  ["Question #", "Question Text", "Username", "MCQ Answer", "Explanation"]

/-- Spec wording: the data fields of one (question, answer-record) pair. -/
def specDataFields (q : Question) (a : Answer) : List String :=
  [toString q.questionNumber, q.questionText, a.username,
   mcqAnswerField a.mcqAnswer, a.explanation]

/-- Spec wording: the whole payload, header first, then one row per
(question, answer-record) pair in question order then participant order. -/
def specCSV (s : Session) : String :=
  String.intercalate "\n"
    (specRow specHeader ::
      s.questions.flatMap (fun q => q.answers.map (fun p => specRow (specDataFields q p.2))))

/-! ## Invariants -/

/-- The questions starting at 1-based position `n` carry consecutive
`questionNumber`s. -/
def numbersFrom (n : Nat) : List Question → Prop
  | [] => True
  | q :: rest => q.questionNumber = n ∧ numbersFrom (n + 1) rest

instance numbersFromDec : (n : Nat) → (l : List Question) → Decidable (numbersFrom n l)
  | _, [] => .isTrue trivial
  | n, q :: rest =>
      have : Decidable (numbersFrom (n + 1) rest) := numbersFromDec (n + 1) rest
      inferInstanceAs (Decidable (_ ∧ _))

/-- Structural session invariant: the current question index always equals
`questions.length - 1` (so it is `-1` exactly when no question exists, and a
valid index otherwise), and question numbers are the 1-based positions. -/
def sessionInv (s : Session) : Prop :=
  s.currentQuestionIndex = (s.questions.length : Int) - 1 ∧
  numbersFrom 1 s.questions

instance (s : Session) : Decidable (sessionInv s) :=
  inferInstanceAs (Decidable (_ ∧ _))

/-- Registry-wide invariant. -/
def regInv (reg : Registry) : Prop :=
  ∀ p ∈ reg, sessionInv p.2

instance (reg : Registry) : Decidable (regInv reg) :=
  List.decidableBAll _ reg

/-- Relation between one session and its ghost entry `ls`:
the ghost runs parallel to `questions`; student keys and every question's
answer keys are duplicate-free; every answer key of question `j` is recorded
in `ls_j`; and while a question is current, every present student id is
recorded in its ghost entry. -/
structure InteractorInv (s : Session) (ls : List (List String)) : Prop where
  len_eq : ls.length = s.questions.length
  students_nodup : (jsKeys s.students).Nodup
  answers_nodup : ∀ j q, s.questions.get? j = some q → (jsKeys q.answers).Nodup
  keys_sub : ∀ j q l, s.questions.get? j = some q → ls.get? j = some l →
    ∀ k ∈ jsKeys q.answers, k ∈ l
  cur_sub : ∀ q l, getCurrentQuestion s = some q →
    ls.get? s.currentQuestionIndex.toNat = some l →
    ∀ k ∈ jsKeys s.students, k ∈ l

/-- Registry/ghost coupling: every live session has a ghost entry it is
`InteractorInv`-related to. -/
def RegGhostInv (reg : Registry) (g : Ghost) : Prop :=
  ∀ code s, jsGet reg code = some s →
    ∃ ls, jsGet g code = some ls ∧ InteractorInv s ls

/-! ## Association-list lemmas -/

theorem jsGet_jsSet_self (m : List (String × α)) (k : String) (v : α) :
    jsGet (jsSet m k v) k = some v := by
  induction m with
  | nil => simp [jsGet, jsSet]
  | cons p rest ih =>
      by_cases h : p.1 = k <;> simp [jsGet, jsSet, h, ih]

theorem jsGet_jsSet_ne (m : List (String × α)) {k k' : String} (v : α) (h : k' ≠ k) :
    jsGet (jsSet m k v) k' = jsGet m k' := by
  have h' : k ≠ k' := Ne.symm h
  induction m with
  | nil => simp [jsGet, jsSet, h']
  | cons p rest ih =>
      obtain ⟨k2, v2⟩ := p
      by_cases h1 : k2 = k
      · subst h1
        simp [jsGet, jsSet, h']
      · by_cases h2 : k2 = k' <;> simp [jsGet, jsSet, h1, h2, h, h', ih]

theorem jsGet_jsModify_self (m : List (String × α)) (k : String) (f : α → α) :
    jsGet (jsModify m k f) k = (jsGet m k).map f := by
  induction m with
  | nil => simp [jsGet, jsModify]
  | cons p rest ih =>
      by_cases h : p.1 = k <;> simp [jsGet, jsModify, h, ih]

theorem jsGet_jsModify_ne (m : List (String × α)) {k k' : String} (f : α → α) (h : k' ≠ k) :
    jsGet (jsModify m k f) k' = jsGet m k' := by
  have h' : k ≠ k' := Ne.symm h
  induction m with
  | nil => simp [jsGet, jsModify]
  | cons p rest ih =>
      obtain ⟨k2, v2⟩ := p
      by_cases h1 : k2 = k
      · subst h1
        simp [jsGet, jsModify, h']
      · by_cases h2 : k2 = k' <;> simp [jsGet, jsModify, h1, h2, h, h', ih]

theorem jsGet_jsDelete_self (m : List (String × α)) (k : String) :
    jsGet (jsDelete m k) k = none := by
  induction m with
  | nil => simp [jsGet, jsDelete]
  | cons p rest ih =>
      by_cases h : p.1 = k <;> simp_all [jsGet, jsDelete, List.filter]

theorem jsGet_jsDelete_ne (m : List (String × α)) {k k' : String} (h : k' ≠ k) :
    jsGet (jsDelete m k) k' = jsGet m k' := by
  have h' : k ≠ k' := Ne.symm h
  induction m with
  | nil => simp [jsGet, jsDelete]
  | cons p rest ih =>
      obtain ⟨k2, v2⟩ := p
      by_cases h1 : k2 = k
      · subst h1
        simp_all [jsGet, jsDelete, List.filter, h']
      · by_cases h2 : k2 = k' <;> simp_all [jsGet, jsDelete, List.filter]

theorem jsKeys_jsModify (m : List (String × α)) (k : String) (f : α → α) :
    jsKeys (jsModify m k f) = jsKeys m := by
  induction m with
  | nil => rfl
  | cons p rest ih =>
      by_cases h : p.1 = k <;> simp [jsKeys, jsModify, h] <;>
        simpa [jsKeys] using ih

theorem length_jsModify (m : List (String × α)) (k : String) (f : α → α) :
    (jsModify m k f).length = m.length := by
  induction m with
  | nil => rfl
  | cons p rest ih =>
      by_cases h : p.1 = k <;> simp [jsModify, h, ih]

theorem jsKeys_jsSet_of_get_some (m : List (String × α)) {k : String} (v : α)
    (h : (jsGet m k).isSome) : jsKeys (jsSet m k v) = jsKeys m := by
  induction m with
  | nil => simp [jsGet] at h
  | cons p rest ih =>
      obtain ⟨k2, v2⟩ := p
      by_cases h1 : k2 = k
      · simp [jsKeys, jsSet, h1]
      · simp only [jsGet, if_neg h1] at h
        have := ih h
        simp only [jsKeys] at this
        simp [jsKeys, jsSet, h1, this]

theorem jsKeys_jsSet_of_get_none (m : List (String × α)) {k : String} (v : α)
    (h : jsGet m k = none) : jsKeys (jsSet m k v) = jsKeys m ++ [k] := by
  induction m with
  | nil => simp [jsKeys, jsSet]
  | cons p rest ih =>
      obtain ⟨k2, v2⟩ := p
      by_cases h1 : k2 = k
      · simp [jsGet, h1] at h
      · simp only [jsGet, if_neg h1] at h
        have := ih h
        simp only [jsKeys] at this
        simp [jsKeys, jsSet, h1, this]

theorem mem_jsKeys_of_get_some (m : List (String × α)) {k : String} {v : α}
    (h : jsGet m k = some v) : k ∈ jsKeys m := by
  induction m with
  | nil => simp [jsGet] at h
  | cons p rest ih =>
      obtain ⟨k2, v2⟩ := p
      by_cases h1 : k2 = k
      · simp [jsKeys, h1]
      · simp only [jsGet, if_neg h1] at h
        have := ih h
        simp only [jsKeys, List.map_cons] at this ⊢
        exact List.mem_cons_of_mem _ this

theorem get_none_of_not_mem_jsKeys (m : List (String × α)) {k : String}
    (h : k ∉ jsKeys m) : jsGet m k = none := by
  induction m with
  | nil => rfl
  | cons p rest ih =>
      obtain ⟨k2, v2⟩ := p
      simp only [jsKeys, List.map_cons, List.mem_cons, not_or] at h
      have h1 : ¬ k2 = k := fun hk => h.1 hk.symm
      simp only [jsGet, if_neg h1]
      exact ih (by simpa [jsKeys] using h.2)

theorem not_mem_jsKeys_of_get_none (m : List (String × α)) {k : String}
    (h : jsGet m k = none) : k ∉ jsKeys m := by
  induction m with
  | nil => simp [jsKeys]
  | cons p rest ih =>
      obtain ⟨k2, v2⟩ := p
      by_cases h1 : k2 = k
      · simp [jsGet, h1] at h
      · simp only [jsGet, if_neg h1] at h
        simp [jsKeys, Ne.symm h1]
        simpa [jsKeys] using ih h

theorem mem_jsKeys_iff_get_isSome (m : List (String × α)) (k : String) :
    k ∈ jsKeys m ↔ (jsGet m k).isSome := by
  constructor
  · intro h
    rcases ho : jsGet m k with _ | v
    · exact absurd h (not_mem_jsKeys_of_get_none m ho)
    · rfl
  · intro h
    rcases ho : jsGet m k with _ | v
    · rw [ho] at h
      simp at h
    · exact mem_jsKeys_of_get_some m ho

theorem mem_jsKeys_jsSet (m : List (String × α)) (k k' : String) (v : α) :
    k' ∈ jsKeys (jsSet m k v) ↔ k' ∈ jsKeys m ∨ k' = k := by
  by_cases hk : k' = k
  · subst hk
    simp [mem_jsKeys_iff_get_isSome, jsGet_jsSet_self]
  · rw [mem_jsKeys_iff_get_isSome, jsGet_jsSet_ne m v hk, ← mem_jsKeys_iff_get_isSome]
    tauto

theorem mem_jsSet (m : List (String × α)) (k : String) (v : α) (p : String × α)
    (h : p ∈ jsSet m k v) : p = (k, v) ∨ p ∈ m := by
  induction m with
  | nil => simpa [jsSet] using h
  | cons q rest ih =>
      obtain ⟨k2, v2⟩ := q
      by_cases h1 : k2 = k
      · subst h1
        rcases (by simpa [jsSet] using h : p = (k2, v) ∨ p ∈ rest) with h2 | h2
        · exact Or.inl h2
        · exact Or.inr (List.mem_cons_of_mem _ h2)
      · rcases (by simpa [jsSet, h1] using h : p = (k2, v2) ∨ p ∈ jsSet rest k v) with h2 | h2
        · exact Or.inr (h2 ▸ List.mem_cons_self _ _)
        · rcases ih h2 with h3 | h3
          · exact Or.inl h3
          · exact Or.inr (List.mem_cons_of_mem _ h3)

theorem mem_jsModify (m : List (String × α)) (k : String) (f : α → α) (p : String × α)
    (h : p ∈ jsModify m k f) : (∃ v, (k, v) ∈ m ∧ p = (k, f v)) ∨ p ∈ m := by
  induction m with
  | nil => simpa [jsModify] using h
  | cons q rest ih =>
      obtain ⟨k2, v2⟩ := q
      by_cases h1 : k2 = k
      · subst h1
        rcases (by simpa [jsModify] using h : p = (k2, f v2) ∨ p ∈ rest) with h2 | h2
        · exact Or.inl ⟨v2, List.mem_cons_self _ _, h2⟩
        · exact Or.inr (List.mem_cons_of_mem _ h2)
      · rcases (by simpa [jsModify, h1] using h : p = (k2, v2) ∨ p ∈ jsModify rest k f) with h2 | h2
        · exact Or.inr (h2 ▸ List.mem_cons_self _ _)
        · rcases ih h2 with ⟨v, hv1, hv2⟩ | h3
          · exact Or.inl ⟨v, List.mem_cons_of_mem _ hv1, hv2⟩
          · exact Or.inr (List.mem_cons_of_mem _ h3)

theorem mem_of_jsGet_some (m : List (String × α)) {k : String} {v : α}
    (h : jsGet m k = some v) : (k, v) ∈ m := by
  induction m with
  | nil => simp [jsGet] at h
  | cons q rest ih =>
      obtain ⟨k2, v2⟩ := q
      by_cases h1 : k2 = k
      · subst h1
        have h2 : v2 = v := by simpa [jsGet] using h
        subst h2
        exact List.mem_cons_self _ _
      · simp only [jsGet, if_neg h1] at h
        exact List.mem_cons_of_mem _ (ih h)

theorem length_jsSet_of_get_some (m : List (String × α)) {k : String} (v : α)
    (h : (jsGet m k).isSome) : (jsSet m k v).length = m.length := by
  induction m with
  | nil => simp [jsGet] at h
  | cons q rest ih =>
      obtain ⟨k2, v2⟩ := q
      by_cases h1 : k2 = k
      · simp [jsSet, h1]
      · simp only [jsGet, if_neg h1] at h
        simp [jsSet, h1, ih h]

theorem jsKeys_jsSet_nodup (m : List (String × α)) (k : String) (v : α)
    (h : (jsKeys m).Nodup) : (jsKeys (jsSet m k v)).Nodup := by
  rcases ho : jsGet m k with _ | w
  · rw [jsKeys_jsSet_of_get_none m v ho]
    refine List.Nodup.append h (List.nodup_singleton k) ?_
    intro x hx hx2
    simp at hx2
    subst hx2
    exact not_mem_jsKeys_of_get_none m ho hx
  · rw [jsKeys_jsSet_of_get_some m v (by simp [ho])]
    exact h

/-! ## Session-level lemmas -/

theorem jsOrEmpty_id (s : String) : jsOrEmpty s = s := by
  by_cases h : s = "" <;> simp [jsOrEmpty, h]

theorem getCurrentQuestion_eq_some {s : Session} {q : Question} :
    getCurrentQuestion s = some q ↔
      0 ≤ s.currentQuestionIndex ∧
      s.currentQuestionIndex < (s.questions.length : Int) ∧
      s.questions.get? s.currentQuestionIndex.toNat = some q := by
  unfold getCurrentQuestion
  by_cases h : s.currentQuestionIndex < 0 ∨ (s.questions.length : Int) ≤ s.currentQuestionIndex
  · simp only [if_pos h]
    constructor
    · intro hc
      exact absurd hc (by simp)
    · rintro ⟨h1, h2, -⟩
      exact absurd h (by omega)
  · simp only [if_neg h]
    constructor
    · intro hg
      refine ⟨?_, ?_, hg⟩ <;> omega
    · rintro ⟨-, -, hg⟩
      exact hg

theorem getCurrentQuestion_neg {s : Session} (h : s.currentQuestionIndex < 0) :
    getCurrentQuestion s = none := by
  unfold getCurrentQuestion
  simp [h]

theorem getCurrentQuestion_stage (s : Session) (st : SStage) :
    getCurrentQuestion { s with stage := st } = getCurrentQuestion s := rfl

theorem getCurrentQuestion_students (s : Session) (stu : List (String × Student)) :
    getCurrentQuestion { s with students := stu } = getCurrentQuestion s := rfl

theorem getCurrentQuestion_teacher (s : Session) (t : Option Nat) :
    getCurrentQuestion { s with teacher := t } = getCurrentQuestion s := rfl

theorem questions_length_setCurrentQuestion (s : Session) (q : Question) :
    (setCurrentQuestion s q).questions.length = s.questions.length := by
  simp [setCurrentQuestion]

/-! ## `numbersFrom` lemmas -/

theorem numbersFrom_append (l : List Question) (q : Question) :
    ∀ n, numbersFrom n l → q.questionNumber = n + l.length →
      numbersFrom n (l ++ [q]) := by
  induction l with
  | nil =>
      intro n _ hq
      simpa [numbersFrom] using hq
  | cons p rest ih =>
      intro n h hq
      obtain ⟨h1, h2⟩ := h
      exact ⟨h1, ih (n + 1) h2 (by simpa [Nat.add_comm, Nat.add_assoc, Nat.add_left_comm] using hq)⟩

theorem numbersFrom_set (l : List Question) (q : Question) :
    ∀ n i p, numbersFrom n l → l.get? i = some p →
      q.questionNumber = p.questionNumber → numbersFrom n (l.set i q) := by
  induction l with
  | nil =>
      intro n i p _ hg _
      simp at hg
  | cons hd rest ih =>
      intro n i p h hg hq
      obtain ⟨h1, h2⟩ := h
      cases i with
      | zero =>
          have hp : hd = p := by simpa [List.get?] using hg
          subst hp
          exact ⟨hq.trans h1, h2⟩
      | succ j =>
          have hg2 : rest.get? j = some p := by simpa [List.get?] using hg
          exact ⟨h1, ih (n + 1) j p h2 hg2 hq⟩

/-! ## `markPrevDone` lemmas -/

theorem markPrevDone_fields (s : Session) :
    (markPrevDone s).teacher = s.teacher ∧
    (markPrevDone s).stage = s.stage ∧
    (markPrevDone s).currentQuestionIndex = s.currentQuestionIndex ∧
    (markPrevDone s).students = s.students ∧
    (markPrevDone s).questions.length = s.questions.length := by
  unfold markPrevDone
  split
  · split
    · split
      · exact ⟨rfl, rfl, rfl, rfl, by simp [setCurrentQuestion]⟩
      · exact ⟨rfl, rfl, rfl, rfl, rfl⟩
    · exact ⟨rfl, rfl, rfl, rfl, rfl⟩
  · exact ⟨rfl, rfl, rfl, rfl, rfl⟩

theorem markPrevDone_numbers (s : Session) (hn : numbersFrom 1 s.questions) :
    numbersFrom 1 (markPrevDone s).questions := by
  unfold markPrevDone
  split
  · split
    case h_1 prevQ hq =>
      split
      · obtain ⟨-, -, hget⟩ := getCurrentQuestion_eq_some.mp hq
        exact numbersFrom_set _ _ 1 _ prevQ hn hget rfl
      · exact hn
    case h_2 => exact hn
  · exact hn

theorem markPrevDone_answers (s : Session) (j : Nat) :
    ((markPrevDone s).questions.get? j).map (fun q => q.answers) =
    (s.questions.get? j).map (fun q => q.answers) := by
  unfold markPrevDone
  split
  · split
    case h_1 prevQ hq =>
      split
      · obtain ⟨h0, hlen, hget⟩ := getCurrentQuestion_eq_some.mp hq
        by_cases hj : j = s.currentQuestionIndex.toNat
        · subst hj
          have hlt : s.currentQuestionIndex.toNat < s.questions.length := by omega
          show ((s.questions.set _ _).get? _).map _ = _
          simp only [setCurrentQuestion, List.get?_eq_getElem?]
          rw [List.getElem?_set_eq_of_lt _ hlt]
          rw [← List.get?_eq_getElem?, hget]
          rfl
        · simp [setCurrentQuestion, List.get?_eq_getElem?,
            List.getElem?_set_ne (fun h => hj h.symm)]
      · rfl
    case h_2 => rfl
  · rfl

/-! ## Invariant helper lemmas -/

theorem sessionInv_of_get {reg : Registry} {code : String} {s : Session}
    (hreg : regInv reg) (h : jsGet reg code = some s) : sessionInv s :=
  hreg (code, s) (mem_of_jsGet_some reg h)

theorem regInv_jsSet {reg : Registry} {code : String} {s : Session}
    (hreg : regInv reg) (hs : sessionInv s) : regInv (jsSet reg code s) := by
  intro p hp
  rcases mem_jsSet reg code s p hp with h | h
  · subst h
    exact hs
  · exact hreg p h

theorem regInv_jsDelete {reg : Registry} (code : String) (hreg : regInv reg) :
    regInv (jsDelete reg code) := by
  intro p hp
  exact hreg p (List.mem_of_mem_filter hp)

/-! ## Claim C4: behaviour on unknown session codes -/

/-- C4: when a command names a session code not present in the registry,
`TEACHER_START_MCQ`, `TEACHER_NEXT_EXPLANATION`, `TEACHER_STOP_QUIZ` and
`TEACHER_CLOSE_PAGE` are silent no-ops (registry unchanged, no event), while
`STUDENT_JOIN_SESSION`, `TEACHER_DOWNLOAD_CSV` and `TEACHER_REJOIN_SESSION`
leave the registry unchanged and send a single `ERROR` event to the calling
connection. -/
theorem unknown_code_policy (reg : Registry) (code : String) (ws : Nat) (ts : String)
    (txt : String) (opts : Nat) (u fid : String)
    (h : jsGet reg code = none) :
    handleMessage reg ws ts (.teacherStartMCQ code txt opts) = (reg, []) ∧
    handleMessage reg ws ts (.teacherNextExplanation code) = (reg, []) ∧
    handleMessage reg ws ts (.teacherStopQuiz code) = (reg, []) ∧
    handleMessage reg ws ts (.teacherClosePage code) = (reg, []) ∧
    handleMessage reg ws ts (.studentJoinSession code u fid) =
      (reg, [.errorEvent ws "Invalid session code"]) ∧
    handleMessage reg ws ts (.teacherDownloadCSV code) =
      (reg, [.errorEvent ws "No such session."]) ∧
    handleMessage reg ws ts (.teacherRejoinSession code) =
      (reg, [.errorEvent ws "Session code not found"]) := by
  refine ⟨?_, ?_, ?_, ?_, ?_, ?_, ?_⟩ <;> simp [handleMessage, h]

/-- C4 witness: the policy at a concrete empty registry. -/
theorem unknown_code_policy_witness :
    jsGet ([] : Registry) "ABC123" = none ∧
    handleMessage [] 7 "20230310-150501" (.teacherStartMCQ "ABC123" "2+2?" 4) = ([], []) ∧
    handleMessage [] 7 "20230310-150501" (.teacherRejoinSession "ABC123") =
      ([], [.errorEvent 7 "Session code not found"]) := by
  refine ⟨rfl, ?_, ?_⟩
  · exact (unknown_code_policy [] "ABC123" 7 "20230310-150501" "2+2?" 4 "Sam" "aa11bb" rfl).1
  · exact (unknown_code_policy [] "ABC123" 7 "20230310-150501" "2+2?" 4 "Sam" "aa11bb" rfl).2.2.2.2.2.2

/-! ## Claim C2: session-code collision on create -/

/-- C2 counterexample: `TEACHER_CREATE_SESSION` does not retry on collision.
With a live session stored under code `"AAAAAA"` that already has one
question, a create whose generated code is again `"AAAAAA"` overwrites that
entry with a fresh empty `WAITING` session (registry still has exactly one
entry and the old session's data is gone), contradicting the claim that
generation is retried rather than overwriting. -/
theorem create_collision_cex :
    let q1 : Question :=
      { questionNumber := 1, questionText := "Q1", mcqOptions := 4,
        stage := .MCQ, answers := [] }
    let s0 : Session :=
      { teacher := some 1, stage := .MCQ, currentQuestionIndex := 0,
        questions := [q1], students := [] }
    let res := handleMessage [("AAAAAA", s0)] 2 "ts" (.teacherCreateSession "AAAAAA")
    res.1 = [("AAAAAA",
      { teacher := some 2, stage := .WAITING, currentQuestionIndex := -1,
        questions := [], students := [] })] ∧
    jsGet res.1 "AAAAAA" ≠ some s0 := by
  refine ⟨rfl, ?_⟩
  decide

/-- C2 amended: the create handler assigns the freshly generated code
unconditionally; when the code collides with an existing live session's code,
that session's registry entry is overwritten by the fresh `WAITING` session
(no retry is performed), and the registry keeps a single entry for the code. -/
theorem create_collision_overwrites (reg : Registry) (code : String) (s : Session)
    (ws : Nat) (ts : String) (h : jsGet reg code = some s) :
    let res := handleMessage reg ws ts (.teacherCreateSession code)
    res.1 = jsSet reg code
      { teacher := some ws, stage := .WAITING, currentQuestionIndex := -1,
        questions := [], students := [] } ∧
    jsGet res.1 code = some
      { teacher := some ws, stage := .WAITING, currentQuestionIndex := -1,
        questions := [], students := [] } ∧
    res.1.length = reg.length ∧
    res.2 = [.sessionCreated ws code] := by
  refine ⟨rfl, jsGet_jsSet_self _ _ _, ?_, rfl⟩
  exact length_jsSet_of_get_some reg _ (by simp [h])

/-- C2 amended witness: overwrite observed at a concrete registry. -/
theorem create_collision_overwrites_witness :
    let s0 : Session :=
      { teacher := some 1, stage := .STOPPED, currentQuestionIndex := -1,
        questions := [], students := [] }
    jsGet [("AAAAAA", s0)] "AAAAAA" = some s0 ∧
    (handleMessage [("AAAAAA", s0)] 2 "ts" (.teacherCreateSession "AAAAAA")).1.length = 1 := by
  refine ⟨rfl, ?_⟩
  exact (create_collision_overwrites [("AAAAAA",
    { teacher := some 1, stage := .STOPPED, currentQuestionIndex := -1,
      questions := [], students := [] })] "AAAAAA" _ 2 "ts" rfl).2.2.1

/-! ## Claims C5 and C10: the CSV export -/

/-- C5: for every session the generated CSV payload is the fixed quoted
header row followed by exactly one data row per (question, answer-record)
pair, in question insertion order then participant insertion order, rows
joined by newlines; every field is double-quoted with internal double quotes
doubled; a missing (`null`) `mcqAnswer` and an empty explanation both render
as an empty quoted string. -/
theorem generateCSV_format (s : Session) (q : Question) (a : Answer)
    (he : a.explanation = "") :
    generateCSV s =
      String.intercalate "\n"
        (specRow specHeader ::
          s.questions.flatMap (fun qq =>
            qq.answers.map (fun p => specRow (specDataFields qq p.2)))) ∧
    specHeader = ["Question #", "Question Text", "Username", "MCQ Answer", "Explanation"] ∧
    (∀ v : String, specQuote v = "\"" ++ escapeQuotes v ++ "\"") ∧
    (∀ r : List String, specRow r = String.intercalate "," (r.map specQuote)) ∧
    mcqAnswerField none = "" ∧
    specDataFields q a =
      [toString q.questionNumber, q.questionText, a.username,
       mcqAnswerField a.mcqAnswer, ""] := by
  refine ⟨?_, rfl, fun _ => rfl, fun _ => rfl, rfl, by simp [specDataFields, he]⟩
  simp [generateCSV, specCSV, specRow, specQuote, specHeader, specDataFields, jsOrEmpty_id,
    List.map_flatMap, Function.comp_def]

/-- C5 witness: the format at a concrete session with one question and two
answer records (`null` answer and empty explanation rendering included). -/
theorem generateCSV_format_witness :
    let aA : Answer := { username := "A", mcqAnswer := some 2, explanation := "ok" }
    let aB : Answer := { username := "B", mcqAnswer := none, explanation := "" }
    let q1 : Question :=
      { questionNumber := 1, questionText := "Q1", mcqOptions := 4, stage := .MCQ,
        answers := [("id1", aA), ("id2", aB)] }
    let s : Session :=
      { teacher := some 1, stage := .MCQ, currentQuestionIndex := 0,
        questions := [q1], students := [] }
    aB.explanation = "" ∧
    generateCSV s =
      String.intercalate "\n"
        (specRow specHeader ::
          s.questions.flatMap (fun qq =>
            qq.answers.map (fun p => specRow (specDataFields qq p.2)))) ∧
    generateCSV s =
      "\"Question #\",\"Question Text\",\"Username\",\"MCQ Answer\",\"Explanation\"\n" ++
      "\"1\",\"Q1\",\"A\",\"2\",\"ok\"\n" ++
      "\"1\",\"Q1\",\"B\",\"\",\"\"" := by
  refine ⟨rfl, ?_, by decide⟩
  exact (generateCSV_format
    { teacher := some 1, stage := .MCQ, currentQuestionIndex := 0,
      questions :=
        [{ questionNumber := 1, questionText := "Q1", mcqOptions := 4, stage := .MCQ,
           answers :=
             [("id1", { username := "A", mcqAnswer := some 2, explanation := "ok" }),
              ("id2", { username := "B", mcqAnswer := none, explanation := "" })] }],
      students := [] }
    { questionNumber := 1, questionText := "Q1", mcqOptions := 4, stage := .MCQ,
      answers := [] }
    { username := "B", mcqAnswer := none, explanation := "" }
    rfl).1

/-- C10: in the CSV export an answer whose `mcqAnswer` is option index `0`
renders as an empty quoted string, identically to an unanswered (`null`)
`mcqAnswer`: the whole payload is unchanged when one record's `some 0` is
replaced by `none`, so the export cannot distinguish the two. -/
theorem csv_option_zero_indistinguishable :
    mcqAnswerField (some 0) = mcqAnswerField none ∧
    ∀ (t : Option Nat) (st : SStage) (cqi : Int) (pre post : List Question)
      (q : Question) (preA postA : List (String × Answer)) (sid : String) (a : Answer)
      (stu : List (String × Student)),
      generateCSV
        { teacher := t, stage := st, currentQuestionIndex := cqi,
          questions :=
            pre ++ [{ q with answers := preA ++ (sid, { a with mcqAnswer := some 0 }) :: postA }] ++ post,
          students := stu } =
      generateCSV
        { teacher := t, stage := st, currentQuestionIndex := cqi,
          questions :=
            pre ++ [{ q with answers := preA ++ (sid, { a with mcqAnswer := none }) :: postA }] ++ post,
          students := stu } := by
  refine ⟨rfl, ?_⟩
  intro t st cqi pre post q preA postA sid a stu
  simp [generateCSV, mcqAnswerField]

/-! ## Claim C9: the keep-alive supervisor -/

theorem tickConn_twice_terminated (c : SupConn) :
    (tickConn (tickConn c)).terminated = true := by
  rcases c with ⟨a, t, cl⟩
  cases a <;> simp [tickConn]

/-- C9: the supervisor fires on a fixed cadence (uptime grows by exactly one
interval per firing); below the uptime ceiling a client that already missed
its probe is terminated at the next firing, so a client that never
acknowledges a probe is terminated within two consecutive firings; once
accumulated uptime reaches `MAX_DURATION` the firing closes every client and
clears the interval, and a cleared supervisor never changes state (never
probes) again. -/
theorem keepalive_supervisor (st : SupState) (hrun : st.stopped = false) :
    (supTick st).totalUptime = st.totalUptime + KEEP_ALIVE_INTERVAL ∧
    (st.totalUptime + KEEP_ALIVE_INTERVAL < MAX_DURATION →
      ∀ i c, st.clients.get? i = some c → c.isAlive = false →
        ∃ c2, (supTick st).clients.get? i = some c2 ∧ c2.terminated = true) ∧
    (st.totalUptime + 2 * KEEP_ALIVE_INTERVAL < MAX_DURATION →
      ∀ c2 ∈ (supTick (supTick st)).clients, c2.terminated = true) ∧
    (MAX_DURATION ≤ st.totalUptime + KEEP_ALIVE_INTERVAL →
      (supTick st).stopped = true ∧
      ∀ c2 ∈ (supTick st).clients, c2.closed = true) ∧
    (∀ st2 : SupState, st2.stopped = true → supTick st2 = st2) := by
  refine ⟨?_, ?_, ?_, ?_, ?_⟩
  · simp only [supTick, hrun, Bool.false_eq_true, if_false]
    split <;> rfl
  · intro hlt i c hg ha
    have hc : ¬ MAX_DURATION ≤ st.totalUptime + KEEP_ALIVE_INTERVAL := by omega
    simp only [supTick, hrun, Bool.false_eq_true, if_false, if_neg hc]
    refine ⟨tickConn c, ?_, ?_⟩
    · simp [List.get?_eq_getElem?, List.getElem?_map,
        (List.get?_eq_getElem? _ _) ▸ hg]
    · simp [tickConn, ha]
  · intro hlt c2 hc2
    have hc : ¬ MAX_DURATION ≤ st.totalUptime + KEEP_ALIVE_INTERVAL := by omega
    have hc' : ¬ MAX_DURATION ≤ st.totalUptime + KEEP_ALIVE_INTERVAL + KEEP_ALIVE_INTERVAL := by
      omega
    simp only [supTick, hrun, Bool.false_eq_true, if_false, if_neg hc, if_neg hc',
      List.map_map, List.mem_map] at hc2
    obtain ⟨c0, -, rfl⟩ := hc2
    exact tickConn_twice_terminated c0
  · intro hge
    simp only [supTick, hrun, Bool.false_eq_true, if_false, if_pos hge]
    refine ⟨by trivial, ?_⟩
    intro c2 hc2
    simp only [List.mem_map] at hc2
    obtain ⟨c0, -, rfl⟩ := hc2
    rfl
  · intro st2 hst2
    simp [supTick, hst2]

/-- C9 witness: one probing firing and the one-shot shutdown at the ceiling,
at concrete supervisor states. -/
theorem keepalive_supervisor_witness :
    (({ totalUptime := 0, stopped := false,
        clients := [{ isAlive := true, terminated := false, closed := false }] } :
        SupState).stopped = false) ∧
    (0 + 2 * KEEP_ALIVE_INTERVAL < MAX_DURATION) ∧
    (∀ c2 ∈ (supTick (supTick
        { totalUptime := 0, stopped := false,
          clients := [{ isAlive := true, terminated := false, closed := false }] })).clients,
      c2.terminated = true) := by
  refine ⟨rfl, by decide, ?_⟩
  exact (keepalive_supervisor _ rfl).2.2.1 (by decide)

/-! ## Claim C1: state after `TEACHER_STOP_QUIZ` -/

/-- C1 counterexample: the handlers carry no stage guard, so a session put in
`STOPPED` stage by `TEACHER_STOP_QUIZ` is not frozen.  Concretely: create
session `"AAAAAA"`, stop it (stage `STOPPED`, zero questions), then send
`TEACHER_START_MCQ` on the same code — the questions list grows from 0 to 1
and the stage even flips back to `MCQ`, contradicting the claim that no
subsequent start-question command mutates `questions`. -/
theorem stop_not_frozen_cex :
    let reg0 := (handleMessage [] 1 "t0" (.teacherCreateSession "AAAAAA")).1
    let reg1 := (handleMessage reg0 1 "t1" (.teacherStopQuiz "AAAAAA")).1
    let reg2 := (handleMessage reg1 1 "t2" (.teacherStartMCQ "AAAAAA" "Q1" 4)).1
    (jsGet reg1 "AAAAAA").map Session.stage = some .STOPPED ∧
    (jsGet reg1 "AAAAAA").map (fun s => s.questions.length) = some 0 ∧
    (jsGet reg2 "AAAAAA").map (fun s => s.questions.length) = some 1 ∧
    (jsGet reg2 "AAAAAA").map Session.stage = some .MCQ := by
  exact ⟨rfl, rfl, rfl, rfl⟩

/-- C1 amended: after `TEACHER_STOP_QUIZ` puts a session in `STOPPED` stage,
`TEACHER_DOWNLOAD_CSV` on its code still succeeds (CSV event, registry
unchanged), but the state is not frozen: the handlers never check the stage,
so a subsequent `TEACHER_START_MCQ` still appends a question (resetting the
stage to `MCQ`) and a subsequent `STUDENT_JOIN_SESSION` still registers the
participant. -/
theorem stopped_session_not_frozen (reg : Registry) (code : String) (s : Session)
    (ws : Nat) (ts : String) (txt : String) (opts : Nat) (u fid : String)
    (h : jsGet reg code = some s) (hstage : s.stage = SStage.STOPPED) :
    handleMessage reg ws ts (.teacherDownloadCSV code) =
      (reg, [.csvData ws (generateCSV s) ("quiz_data_" ++ code ++ "_" ++ ts ++ ".csv")]) ∧
    (∃ s2, jsGet (handleMessage reg ws ts (.teacherStartMCQ code txt opts)).1 code = some s2 ∧
       s2.questions.length = s.questions.length + 1 ∧ s2.stage = SStage.MCQ) ∧
    (∃ s2, jsGet (handleMessage reg ws ts (.studentJoinSession code u fid)).1 code = some s2 ∧
       jsGet s2.students fid = some { username := u, ws := ws }) := by
  refine ⟨by simp [handleMessage, h], ?_, ?_⟩
  · simp only [handleMessage, h]
    refine ⟨_, jsGet_jsSet_self _ _ _, ?_, (markPrevDone_fields _).2.1⟩
    simp [(markPrevDone_fields { s with stage := SStage.MCQ }).2.2.2.2]
  · simp only [handleMessage, h]
    split
    · refine ⟨_, jsGet_jsSet_self _ _ _, ?_⟩
      simp only [setCurrentQuestion]
      exact jsGet_jsSet_self _ _ _
    · exact ⟨_, jsGet_jsSet_self _ _ _, jsGet_jsSet_self _ _ _⟩

/-- C1 amended witness: export, start-question mutation and join mutation on
a concretely stopped session. -/
theorem stopped_session_not_frozen_witness :
    let s0 : Session :=
      { teacher := some 1, stage := .STOPPED, currentQuestionIndex := -1,
        questions := [], students := [] }
    jsGet [("AAAAAA", s0)] "AAAAAA" = some s0 ∧ s0.stage = SStage.STOPPED ∧
    (∃ s2, jsGet (handleMessage [("AAAAAA", s0)] 1 "ts"
        (.teacherStartMCQ "AAAAAA" "Q1" 4)).1 "AAAAAA" = some s2 ∧
      s2.questions.length = s0.questions.length + 1 ∧ s2.stage = SStage.MCQ) := by
  refine ⟨rfl, rfl, ?_⟩
  exact (stopped_session_not_frozen [("AAAAAA",
    { teacher := some 1, stage := .STOPPED, currentQuestionIndex := -1,
      questions := [], students := [] })] "AAAAAA" _ 1 "ts" "Q1" 4 "Sam" "aa11bb"
    rfl rfl).2.1

/-! ## Claim C6: coordinator reattach after stop vs after close -/

/-- C6: `TEACHER_REJOIN_SESSION` on a session that is stopped (stage
`STOPPED`) but still in the registry replaces its teacher connection with the
caller's and sends the caller one full `TEACHER_VIEW_UPDATE` snapshot of the
session; after `TEACHER_CLOSE_PAGE` the session is deleted from the registry
and a rejoin with the same code yields a single `ERROR` event. -/
theorem rejoin_stop_vs_close (reg : Registry) (code : String) (s : Session)
    (ws ws2 : Nat) (ts : String)
    (h : jsGet reg code = some s) (hstage : s.stage = SStage.STOPPED) :
    (handleMessage reg ws ts (.teacherRejoinSession code)).1 =
      jsSet reg code { s with teacher := some ws } ∧
    jsGet (handleMessage reg ws ts (.teacherRejoinSession code)).1 code =
      some { s with teacher := some ws } ∧
    (handleMessage reg ws ts (.teacherRejoinSession code)).2 =
      [.teacherViewUpdate ws (teacherSnapshot code { s with teacher := some ws })] ∧
    jsGet (handleMessage reg ws ts (.teacherClosePage code)).1 code = none ∧
    handleMessage (handleMessage reg ws ts (.teacherClosePage code)).1 ws2 ts
        (.teacherRejoinSession code) =
      ((handleMessage reg ws ts (.teacherClosePage code)).1,
        [.errorEvent ws2 "Session code not found"]) := by
  have hdel : jsGet (handleMessage reg ws ts (.teacherClosePage code)).1 code = none := by
    simp only [handleMessage, h]
    exact jsGet_jsDelete_self _ _
  refine ⟨?_, ?_, ?_, hdel, ?_⟩
  · simp [handleMessage, h]
  · simp only [handleMessage, h]
    exact jsGet_jsSet_self _ _ _
  · simp only [handleMessage, h, broadcastTeacherView, jsGet_jsSet_self]
  · generalize hR : (handleMessage reg ws ts (.teacherClosePage code)).1 = regC at hdel ⊢
    simp [handleMessage, hdel]

/-- C6 witness: rejoin-then-close behaviour at a concrete stopped session. -/
theorem rejoin_stop_vs_close_witness :
    let s0 : Session :=
      { teacher := some 1, stage := .STOPPED, currentQuestionIndex := -1,
        questions := [], students := [] }
    jsGet [("AAAAAA", s0)] "AAAAAA" = some s0 ∧ s0.stage = SStage.STOPPED ∧
    (handleMessage [("AAAAAA", s0)] 5 "ts" (.teacherRejoinSession "AAAAAA")).2 =
      [.teacherViewUpdate 5 (teacherSnapshot "AAAAAA" { s0 with teacher := some 5 })] := by
  refine ⟨rfl, rfl, ?_⟩
  exact (rejoin_stop_vs_close [("AAAAAA",
    { teacher := some 1, stage := .STOPPED, currentQuestionIndex := -1,
      questions := [], students := [] })] "AAAAAA" _ 5 6 "ts" rfl rfl).2.2.1

/-! ## Claim C7: answer records created at join time -/

/-- C7: a participant with a fresh id joining while `currentQuestionIndex`
is `-1` gets no answer record in any question (the questions are untouched);
a participant joining while a current question exists gets exactly one answer
record, on that current question only, initialised with the supplied display
name, `mcqAnswer = null` and an empty explanation. -/
theorem join_answer_slots (reg : Registry) (code : String) (s : Session)
    (ws : Nat) (ts : String) (u fid : String)
    (h : jsGet reg code = some s)
    (hfresh : ∀ j q, s.questions.get? j = some q → jsGet q.answers fid = none) :
    (s.currentQuestionIndex = -1 →
      ∃ s2, jsGet (handleMessage reg ws ts (.studentJoinSession code u fid)).1 code = some s2 ∧
        s2.questions = s.questions ∧
        ∀ j q, s2.questions.get? j = some q → jsGet q.answers fid = none) ∧
    (∀ qc, getCurrentQuestion s = some qc →
      ∃ s2, jsGet (handleMessage reg ws ts (.studentJoinSession code u fid)).1 code = some s2 ∧
        s2.questions.length = s.questions.length ∧
        ∀ j q, s2.questions.get? j = some q →
          jsGet q.answers fid =
            if (j : Int) = s.currentQuestionIndex
            then some { username := u, mcqAnswer := none, explanation := "" }
            else none) := by
  constructor
  · intro hneg
    simp only [handleMessage, h, getCurrentQuestion_students,
      getCurrentQuestion_neg (show s.currentQuestionIndex < 0 by omega)]
    refine ⟨_, jsGet_jsSet_self _ _ _, rfl, ?_⟩
    intro j q hj
    exact hfresh j q hj
  · intro qc hqc
    obtain ⟨h0, hlen, hget⟩ := getCurrentQuestion_eq_some.mp hqc
    simp only [handleMessage, h, getCurrentQuestion_students, hqc]
    refine ⟨_, jsGet_jsSet_self _ _ _, by simp [setCurrentQuestion], ?_⟩
    intro j q hj
    simp only [setCurrentQuestion] at hj
    by_cases hji : j = s.currentQuestionIndex.toNat
    · subst hji
      have hlt : s.currentQuestionIndex.toNat < s.questions.length := by omega
      rw [List.get?_eq_getElem?] at hj
      rw [List.getElem?_set_eq_of_lt _ hlt] at hj
      rw [← Option.some_inj.mp hj, if_pos (by omega)]
      exact jsGet_jsSet_self _ _ _
    · rw [List.get?_eq_getElem?, List.getElem?_set_ne (fun hx => hji hx.symm),
        ← List.get?_eq_getElem?] at hj
      rw [if_neg (by omega)]
      exact hfresh j q hj

/-- A sample one-question session used by witnesses. -/
def witQ1 : Question :=
  { questionNumber := 1, questionText := "Q1", mcqOptions := 4, stage := .MCQ,
    answers := [] }

/-- A sample session whose current question is `witQ1`. -/
def witS0 : Session :=
  { teacher := some 1, stage := .MCQ, currentQuestionIndex := 0,
    questions := [witQ1], students := [] }

/-- C7 witness: a fresh participant joining a session with an active current
question gets exactly the initial answer record on that question. -/
theorem join_answer_slots_witness :
    jsGet [("AAAAAA", witS0)] "AAAAAA" = some witS0 ∧
    (∀ j q, witS0.questions.get? j = some q → jsGet q.answers "aa11bb" = none) ∧
    getCurrentQuestion witS0 = some witQ1 ∧
    (∃ s2, jsGet (handleMessage [("AAAAAA", witS0)] 3 "ts"
        (.studentJoinSession "AAAAAA" "Sam" "aa11bb")).1 "AAAAAA" = some s2 ∧
      s2.questions.length = witS0.questions.length ∧
      ∀ j q, s2.questions.get? j = some q →
        jsGet q.answers "aa11bb" =
          if (j : Int) = witS0.currentQuestionIndex
          then some { username := "Sam", mcqAnswer := none, explanation := "" }
          else none) := by
  have hfr : ∀ j q, witS0.questions.get? j = some q → jsGet q.answers "aa11bb" = none := by
    intro j q hj
    cases j with
    | zero =>
        obtain rfl := Option.some_inj.mp hj
        rfl
    | succ n => simp [witS0, List.get?] at hj
  refine ⟨rfl, hfr, rfl, ?_⟩
  exact (join_answer_slots [("AAAAAA", witS0)] "AAAAAA" witS0 3 "ts" "Sam" "aa11bb"
    (by simp [jsGet]) hfr).2 witQ1 rfl

/-! ## Preservation of the structural session invariant -/

theorem regInv_step (reg : Registry) (ws : Nat) (ts : String) (msg : ClientMsg)
    (hreg : regInv reg) : regInv (handleMessage reg ws ts msg).1 := by
  cases msg with
  | teacherCreateSession code =>
      simp only [handleMessage]
      exact regInv_jsSet hreg ⟨by norm_num, trivial⟩
  | teacherStartMCQ code txt opts =>
      simp only [handleMessage]
      rcases ho : jsGet reg code with _ | s <;> simp only [ho]
      · exact hreg
      · apply regInv_jsSet hreg
        obtain ⟨hc, hn⟩ := sessionInv_of_get hreg ho
        have hlen := (markPrevDone_fields { s with stage := SStage.MCQ }).2.2.2.2
        refine ⟨?_, ?_⟩
        · dsimp only
          simp only [List.length_append, List.length_cons, List.length_nil]
          omega
        · exact numbersFrom_append _ _ 1 (markPrevDone_numbers _ hn) (by dsimp only; omega)
  | teacherNextExplanation code =>
      simp only [handleMessage]
      rcases ho : jsGet reg code with _ | s <;> simp only [ho]
      · exact hreg
      · apply regInv_jsSet hreg
        obtain ⟨hc, hn⟩ := sessionInv_of_get hreg ho
        split
        case h_1 curQ hq =>
          split
          · obtain ⟨-, -, hget⟩ := getCurrentQuestion_eq_some.mp hq
            exact ⟨by simpa [setCurrentQuestion] using hc,
              numbersFrom_set _ _ 1 _ curQ hn hget rfl⟩
          · exact ⟨hc, hn⟩
        case h_2 => exact ⟨hc, hn⟩
  | teacherStopQuiz code =>
      simp only [handleMessage]
      rcases ho : jsGet reg code with _ | s <;> simp only [ho]
      · exact hreg
      · obtain ⟨hc, hn⟩ := sessionInv_of_get hreg ho
        exact regInv_jsSet hreg ⟨hc, hn⟩
  | teacherClosePage code =>
      simp only [handleMessage]
      rcases ho : jsGet reg code with _ | s <;> simp only [ho]
      · exact hreg
      · obtain ⟨hc, hn⟩ := sessionInv_of_get hreg ho
        exact regInv_jsDelete _ (regInv_jsSet hreg ⟨hc, hn⟩)
  | teacherDownloadCSV code =>
      simp only [handleMessage]
      rcases ho : jsGet reg code with _ | s <;> simp only [ho] <;> exact hreg
  | teacherRejoinSession code =>
      simp only [handleMessage]
      rcases ho : jsGet reg code with _ | s <;> simp only [ho]
      · exact hreg
      · obtain ⟨hc, hn⟩ := sessionInv_of_get hreg ho
        exact regInv_jsSet hreg ⟨hc, hn⟩
  | studentJoinSession code u fid =>
      simp only [handleMessage]
      rcases ho : jsGet reg code with _ | s <;> simp only [ho]
      · exact hreg
      · apply regInv_jsSet hreg
        obtain ⟨hc, hn⟩ := sessionInv_of_get hreg ho
        split
        case h_1 curQ hq =>
          obtain ⟨-, -, hget⟩ := getCurrentQuestion_eq_some.mp hq
          exact ⟨by simpa [setCurrentQuestion] using hc,
            numbersFrom_set _ _ 1 _ curQ hn hget rfl⟩
        case h_2 => exact ⟨hc, hn⟩
  | studentSubmitMCQ code sid ans =>
      simp only [handleMessage]
      rcases ho : jsGet reg code with _ | s <;> simp only [ho]
      · exact hreg
      · obtain ⟨hc, hn⟩ := sessionInv_of_get hreg ho
        rcases hq : getCurrentQuestion s with _ | curQ <;> simp only [hq]
        · exact hreg
        · split
          · exact hreg
          · apply regInv_jsSet hreg
            obtain ⟨-, -, hget⟩ := getCurrentQuestion_eq_some.mp hq
            exact ⟨by simpa [setCurrentQuestion] using hc,
              numbersFrom_set _ _ 1 _ curQ hn hget rfl⟩
  | studentExplanationUpdate code sid etxt =>
      simp only [handleMessage]
      rcases ho : jsGet reg code with _ | s <;> simp only [ho]
      · exact hreg
      · obtain ⟨hc, hn⟩ := sessionInv_of_get hreg ho
        rcases hq : getCurrentQuestion s with _ | curQ <;> simp only [hq]
        · exact hreg
        · split
          · exact hreg
          · apply regInv_jsSet hreg
            obtain ⟨-, -, hget⟩ := getCurrentQuestion_eq_some.mp hq
            exact ⟨by simpa [setCurrentQuestion] using hc,
              numbersFrom_set _ _ 1 _ curQ hn hget rfl⟩

theorem cqi_le_of_same {reg : Registry} {code : String} {s s2 : Session}
    (h1 : jsGet reg code = some s) (h2 : jsGet reg code = some s2) :
    s.currentQuestionIndex ≤ s2.currentQuestionIndex := by
  obtain rfl := Option.some_inj.mp (h1.symm.trans h2)
  exact le_refl _

/-- `currentQuestionIndex` never decreases across any non-create command
(create can overwrite a colliding code with a fresh session, which starts a
new session's life). -/
theorem cqi_mono_step (reg : Registry) (ws : Nat) (ts : String) (msg : ClientMsg)
    (code : String) (s s2 : Session) (hreg : regInv reg)
    (hmsg : ∀ c, msg ≠ ClientMsg.teacherCreateSession c)
    (h1 : jsGet reg code = some s)
    (h2 : jsGet (handleMessage reg ws ts msg).1 code = some s2) :
    s.currentQuestionIndex ≤ s2.currentQuestionIndex := by
  cases msg with
  | teacherCreateSession c => exact absurd rfl (hmsg c)
  | teacherStartMCQ c txt opts =>
      simp only [handleMessage] at h2
      rcases ho : jsGet reg c with _ | sc <;> simp only [ho] at h2
      · exact cqi_le_of_same h1 h2
      · by_cases hcode : code = c
        · subst hcode
          obtain rfl := Option.some_inj.mp (h1.symm.trans ho)
          rw [jsGet_jsSet_self] at h2
          obtain rfl := Option.some_inj.mp h2
          have hc := (sessionInv_of_get hreg h1).1
          have hlen := (markPrevDone_fields { s with stage := SStage.MCQ }).2.2.2.2
          dsimp only at hlen ⊢
          omega
        · rw [jsGet_jsSet_ne _ _ hcode] at h2
          exact cqi_le_of_same h1 h2
  | teacherNextExplanation c =>
      simp only [handleMessage] at h2
      rcases ho : jsGet reg c with _ | sc <;> simp only [ho] at h2
      · exact cqi_le_of_same h1 h2
      · by_cases hcode : code = c
        · subst hcode
          obtain rfl := Option.some_inj.mp (h1.symm.trans ho)
          rw [jsGet_jsSet_self] at h2
          split at h2
          · split at h2
            · obtain rfl := Option.some_inj.mp h2
              exact le_refl _
            · obtain rfl := Option.some_inj.mp h2
              exact le_refl _
          · obtain rfl := Option.some_inj.mp h2
            exact le_refl _
        · rw [jsGet_jsSet_ne _ _ hcode] at h2
          exact cqi_le_of_same h1 h2
  | teacherStopQuiz c =>
      simp only [handleMessage] at h2
      rcases ho : jsGet reg c with _ | sc <;> simp only [ho] at h2
      · exact cqi_le_of_same h1 h2
      · by_cases hcode : code = c
        · subst hcode
          obtain rfl := Option.some_inj.mp (h1.symm.trans ho)
          rw [jsGet_jsSet_self] at h2
          obtain rfl := Option.some_inj.mp h2
          exact le_refl _
        · rw [jsGet_jsSet_ne _ _ hcode] at h2
          exact cqi_le_of_same h1 h2
  | teacherClosePage c =>
      simp only [handleMessage] at h2
      rcases ho : jsGet reg c with _ | sc <;> simp only [ho] at h2
      · exact cqi_le_of_same h1 h2
      · by_cases hcode : code = c
        · subst hcode
          rw [jsGet_jsDelete_self] at h2
          cases h2
        · rw [jsGet_jsDelete_ne _ hcode, jsGet_jsSet_ne _ _ hcode] at h2
          exact cqi_le_of_same h1 h2
  | teacherDownloadCSV c =>
      simp only [handleMessage] at h2
      rcases ho : jsGet reg c with _ | sc <;> simp only [ho] at h2 <;>
        exact cqi_le_of_same h1 h2
  | teacherRejoinSession c =>
      simp only [handleMessage] at h2
      rcases ho : jsGet reg c with _ | sc <;> simp only [ho] at h2
      · exact cqi_le_of_same h1 h2
      · by_cases hcode : code = c
        · subst hcode
          obtain rfl := Option.some_inj.mp (h1.symm.trans ho)
          rw [jsGet_jsSet_self] at h2
          obtain rfl := Option.some_inj.mp h2
          exact le_refl _
        · rw [jsGet_jsSet_ne _ _ hcode] at h2
          exact cqi_le_of_same h1 h2
  | studentJoinSession c u fid =>
      simp only [handleMessage] at h2
      rcases ho : jsGet reg c with _ | sc <;> simp only [ho] at h2
      · exact cqi_le_of_same h1 h2
      · by_cases hcode : code = c
        · subst hcode
          obtain rfl := Option.some_inj.mp (h1.symm.trans ho)
          rw [jsGet_jsSet_self] at h2
          split at h2
          · obtain rfl := Option.some_inj.mp h2
            exact le_refl _
          · obtain rfl := Option.some_inj.mp h2
            exact le_refl _
        · rw [jsGet_jsSet_ne _ _ hcode] at h2
          exact cqi_le_of_same h1 h2
  | studentSubmitMCQ c sid ans =>
      simp only [handleMessage] at h2
      rcases ho : jsGet reg c with _ | sc <;> simp only [ho] at h2
      · exact cqi_le_of_same h1 h2
      · rcases hq : getCurrentQuestion sc with _ | curQ <;> simp only [hq] at h2
        · exact cqi_le_of_same h1 h2
        · split at h2
          · exact cqi_le_of_same h1 h2
          · by_cases hcode : code = c
            · subst hcode
              obtain rfl := Option.some_inj.mp (h1.symm.trans ho)
              rw [jsGet_jsSet_self] at h2
              obtain rfl := Option.some_inj.mp h2
              exact le_refl _
            · rw [jsGet_jsSet_ne _ _ hcode] at h2
              exact cqi_le_of_same h1 h2
  | studentExplanationUpdate c sid etxt =>
      simp only [handleMessage] at h2
      rcases ho : jsGet reg c with _ | sc <;> simp only [ho] at h2
      · exact cqi_le_of_same h1 h2
      · rcases hq : getCurrentQuestion sc with _ | curQ <;> simp only [hq] at h2
        · exact cqi_le_of_same h1 h2
        · split at h2
          · exact cqi_le_of_same h1 h2
          · by_cases hcode : code = c
            · subst hcode
              obtain rfl := Option.some_inj.mp (h1.symm.trans ho)
              rw [jsGet_jsSet_self] at h2
              obtain rfl := Option.some_inj.mp h2
              exact le_refl _
            · rw [jsGet_jsSet_ne _ _ hcode] at h2
              exact cqi_le_of_same h1 h2

/-! ## Claim C3: start-question effects and index invariant -/

/-- C3: on a registry satisfying the structural invariant (which holds in
every reachable state): each `TEACHER_START_MCQ` on an existing session
increases `currentQuestionIndex` by exactly one and `questions.length` by
exactly one, and the new question's `questionNumber` is its 1-based position;
every command preserves the invariant; `currentQuestionIndex` is always `-1`
or a valid index into `questions`; and no command except session creation
(which replaces the session wholesale on a colliding code) ever decreases a
session's `currentQuestionIndex`. -/
theorem start_question_effects (reg : Registry) (hreg : regInv reg) :
    (∀ code s ws ts txt opts, jsGet reg code = some s →
      ∃ s2, jsGet (handleMessage reg ws ts (.teacherStartMCQ code txt opts)).1 code = some s2 ∧
        s2.currentQuestionIndex = s.currentQuestionIndex + 1 ∧
        s2.questions.length = s.questions.length + 1 ∧
        ∃ q, s2.questions.get? s.questions.length = some q ∧
          q.questionNumber = s.questions.length + 1) ∧
    (∀ ws ts msg, regInv (handleMessage reg ws ts msg).1) ∧
    (∀ code s, jsGet reg code = some s →
      s.currentQuestionIndex = -1 ∨
      (0 ≤ s.currentQuestionIndex ∧ s.currentQuestionIndex < (s.questions.length : Int))) ∧
    (∀ ws ts msg code s s2, (∀ c, msg ≠ ClientMsg.teacherCreateSession c) →
      jsGet reg code = some s →
      jsGet (handleMessage reg ws ts msg).1 code = some s2 →
      s.currentQuestionIndex ≤ s2.currentQuestionIndex) := by
  refine ⟨?_, fun ws ts msg => regInv_step reg ws ts msg hreg, ?_,
    fun ws ts msg code s s2 hm h1 h2 => cqi_mono_step reg ws ts msg code s s2 hreg hm h1 h2⟩
  · intro code s ws ts txt opts ho
    simp only [handleMessage, ho]
    obtain ⟨hc, hn⟩ := sessionInv_of_get hreg ho
    have hlen := (markPrevDone_fields { s with stage := SStage.MCQ }).2.2.2.2
    dsimp only at hlen
    refine ⟨_, jsGet_jsSet_self _ _ _, ?_, ?_, ?_⟩
    · dsimp only
      omega
    · dsimp only
      simp only [List.length_append, List.length_cons, List.length_nil]
      omega
    · dsimp only
      rw [List.get?_eq_getElem?]
      rw [show s.questions.length =
          (markPrevDone { s with stage := SStage.MCQ }).questions.length from hlen.symm]
      exact ⟨_, List.getElem?_concat_length _ _, rfl⟩
  · intro code s ho
    have hc := (sessionInv_of_get hreg ho).1
    omega

/-- An initial session as created by `TEACHER_CREATE_SESSION` (teacher
connection 1), used by witnesses. -/
def witFresh : Session :=
  { teacher := some 1, stage := .WAITING, currentQuestionIndex := -1,
    questions := [], students := [] }

/-- C3 witness: the first start-question on a freshly created session takes
`currentQuestionIndex` from `-1` to `0` and appends question number 1. -/
theorem start_question_effects_witness :
    regInv [("AAAAAA", witFresh)] ∧
    jsGet [("AAAAAA", witFresh)] "AAAAAA" = some witFresh ∧
    ∃ s2, jsGet (handleMessage [("AAAAAA", witFresh)] 1 "ts"
        (.teacherStartMCQ "AAAAAA" "2+2?" 4)).1 "AAAAAA" = some s2 ∧
      s2.currentQuestionIndex = witFresh.currentQuestionIndex + 1 ∧
      s2.questions.length = witFresh.questions.length + 1 ∧
      ∃ q, s2.questions.get? witFresh.questions.length = some q ∧
        q.questionNumber = witFresh.questions.length + 1 := by
  refine ⟨by decide, rfl, ?_⟩
  exact (start_question_effects [("AAAAAA", witFresh)] (by decide)).1
    "AAAAAA" witFresh 1 "ts" "2+2?" 4 rfl

/-! ## Lemmas about list indexing and `addAt` -/

theorem lt_of_get?_eq_some {l : List α} {i : Nat} {x : α} (h : l.get? i = some x) :
    i < l.length := by
  by_contra hge
  rw [List.get?_eq_none.mpr (by omega)] at h
  cases h

theorem get?_set_self2 (l : List α) (i : Nat) (a : α) (h : i < l.length) :
    (l.set i a).get? i = some a := by
  rw [List.get?_eq_getElem?]
  exact List.getElem?_set_eq_of_lt a h

theorem get?_set_other (l : List α) (i j : Nat) (a : α) (h : j ≠ i) :
    (l.set i a).get? j = l.get? j := by
  rw [List.get?_eq_getElem?, List.getElem?_set_ne (fun hx => h hx.symm),
    ← List.get?_eq_getElem?]

theorem get?_append_left {l₁ l₂ : List α} {j : Nat} (h : j < l₁.length) :
    (l₁ ++ l₂).get? j = l₁.get? j := by
  rw [List.get?_eq_getElem?, List.getElem?_append, if_pos h, ← List.get?_eq_getElem?]

theorem addAt_length (ls : List (List String)) (i : Nat) (id : String) :
    (addAt ls i id).length = ls.length := by
  unfold addAt
  split <;> simp

theorem addAt_get_self {ls : List (List String)} {i : Nat} (id : String) {l : List String}
    (h : ls.get? i = some l) : (addAt ls i id).get? i = some (l ++ [id]) := by
  have hlt := lt_of_get?_eq_some h
  unfold addAt
  rw [h]
  exact get?_set_self2 _ _ _ hlt

theorem addAt_get_ne (ls : List (List String)) (i : Nat) (id : String) (j : Nat)
    (h : j ≠ i) : (addAt ls i id).get? j = ls.get? j := by
  unfold addAt
  split
  case h_1 l0 h0 => exact get?_set_other _ _ _ _ h
  case h_2 => rfl

theorem jsKeys_map_entry (m : List (String × α)) (f : String × α → β) :
    jsKeys (m.map (fun p => (p.1, f p))) = jsKeys m := by
  simp [jsKeys, List.map_map, Function.comp_def]

theorem set_answers_map (qs : List Question) (i : Nat) (q q' : Question)
    (hget : qs.get? i = some q) (hans : q'.answers = q.answers) (j : Nat) :
    ((qs.set i q').get? j).map (fun x => x.answers) =
      (qs.get? j).map (fun x => x.answers) := by
  by_cases hj : j = i
  · subst hj
    rw [get?_set_self2 _ _ _ (lt_of_get?_eq_some hget), hget]
    simpa using hans
  · rw [get?_set_other _ _ _ _ hj]

/-! ## `InteractorInv` preservation building blocks -/

theorem interactorInv_fresh (t : Option Nat) :
    InteractorInv
      { teacher := t, stage := .WAITING, currentQuestionIndex := -1,
        questions := [], students := [] } [] := by
  refine ⟨rfl, List.nodup_nil, ?_, ?_, ?_⟩
  · intro j q hg
    simp [List.get?] at hg
  · intro j q l hg hl k hk
    simp [List.get?] at hg
  · intro q l hgc hl k hk
    simp [getCurrentQuestion] at hgc

/-- An answers-preserving session change (stage, teacher or question-stage
updates) keeps the interactor invariant with the same ghost entry. -/
theorem interactorInv_congr {s s2 : Session} {ls : List (List String)}
    (inv : InteractorInv s ls)
    (hq : ∀ j, (s2.questions.get? j).map (fun x => x.answers) =
      (s.questions.get? j).map (fun x => x.answers))
    (hlen : s2.questions.length = s.questions.length)
    (hstu : s2.students = s.students)
    (hcqi : s2.currentQuestionIndex = s.currentQuestionIndex) :
    InteractorInv s2 ls := by
  obtain ⟨ilen, istu, inodup, isub, icur⟩ := inv
  have hex : ∀ j q, s2.questions.get? j = some q →
      ∃ q0, s.questions.get? j = some q0 ∧ q.answers = q0.answers := by
    intro j q hg
    have h := hq j
    rw [hg] at h
    rcases hx : s.questions.get? j with _ | q0
    · rw [hx] at h
      cases h
    · rw [hx] at h
      exact ⟨q0, rfl, by simpa using h⟩
  refine ⟨by omega, by rw [hstu]; exact istu, ?_, ?_, ?_⟩
  · intro j q hg
    obtain ⟨q0, hx, ha⟩ := hex j q hg
    rw [jsKeys, ha]
    exact inodup j q0 hx
  · intro j q l hg hl k hk
    obtain ⟨q0, hx, ha⟩ := hex j q hg
    rw [jsKeys, ha] at hk
    exact isub j q0 l hx hl k hk
  · intro q l hgc hl k hk
    obtain ⟨h0, hl2, hget⟩ := getCurrentQuestion_eq_some.mp hgc
    obtain ⟨q0, hx, -⟩ := hex _ q hget
    have hgc0 : getCurrentQuestion s = some q0 :=
      getCurrentQuestion_eq_some.mpr ⟨by omega, by omega, by rw [← hcqi]; exact hx⟩
    rw [hstu] at hk
    rw [hcqi] at hl
    exact icur q0 l hgc0 hl k hk

/-- Extending a ghost entry preserves the invariant. -/
theorem interactorInv_addAt {s : Session} {ls : List (List String)} (i : Nat) (id : String)
    (inv : InteractorInv s ls) : InteractorInv s (addAt ls i id) := by
  obtain ⟨ilen, istu, inodup, isub, icur⟩ := inv
  refine ⟨by rw [addAt_length]; exact ilen, istu, inodup, ?_, ?_⟩
  · intro j q l hg hl k hk
    unfold addAt at hl
    rcases hx : ls.get? i with _ | l0 <;> rw [hx] at hl
    · exact isub j q l hg hl k hk
    · by_cases hj : j = i
      · subst hj
        rw [get?_set_self2 _ _ _ (lt_of_get?_eq_some hx)] at hl
        obtain rfl := Option.some_inj.mp hl
        exact List.mem_append_left _ (isub j q l0 hg hx k hk)
      · rw [get?_set_other _ _ _ _ hj] at hl
        exact isub j q l hg hl k hk
  · intro q l hgc hl k hk
    unfold addAt at hl
    rcases hx : ls.get? i with _ | l0 <;> rw [hx] at hl
    · exact icur q l hgc hl k hk
    · by_cases hj : s.currentQuestionIndex.toNat = i
      · rw [hj, get?_set_self2 _ _ _ (lt_of_get?_eq_some hx)] at hl
        obtain rfl := Option.some_inj.mp hl
        exact List.mem_append_left _ (icur q l0 hgc (by rw [hj]; exact hx) k hk)
      · rw [get?_set_other _ _ _ _ hj] at hl
        exact icur q l hgc hl k hk

/-- Updating the current question's answers (and possibly the student map)
with at most one new key `id`, while adding `id` to the current ghost entry. -/
theorem interactorInv_update_cur {s : Session} {ls : List (List String)} {curQ : Question}
    (inv : InteractorInv s ls) (hq : getCurrentQuestion s = some curQ)
    (newAns : List (String × Answer)) (id : String)
    (hkeys : ∀ k, k ∈ jsKeys newAns → k ∈ jsKeys curQ.answers ∨ k = id)
    (hnodup : (jsKeys newAns).Nodup)
    (newStu : List (String × Student))
    (hstu : ∀ k, k ∈ jsKeys newStu → k ∈ jsKeys s.students ∨ k = id)
    (hstunodup : (jsKeys newStu).Nodup) :
    InteractorInv
      { s with
        students := newStu,
        questions := s.questions.set s.currentQuestionIndex.toNat
          { curQ with answers := newAns } }
      (addAt ls s.currentQuestionIndex.toNat id) := by
  obtain ⟨h0, hltI, hget⟩ := getCurrentQuestion_eq_some.mp hq
  obtain ⟨ilen, istu, inodup, isub, icur⟩ := inv
  have hidx : s.currentQuestionIndex.toNat < s.questions.length := by omega
  have hl0x : ∃ l0, ls.get? s.currentQuestionIndex.toNat = some l0 := by
    rcases hx : ls.get? s.currentQuestionIndex.toNat with _ | l0
    · have := List.get?_eq_none.mp hx
      omega
    · exact ⟨l0, rfl⟩
  obtain ⟨l0, hl0⟩ := hl0x
  refine ⟨?_, hstunodup, ?_, ?_, ?_⟩
  · dsimp only
    rw [addAt_length, List.length_set]
    exact ilen
  · intro j q hg
    dsimp only at hg
    by_cases hj : j = s.currentQuestionIndex.toNat
    · subst hj
      rw [get?_set_self2 _ _ _ hidx] at hg
      obtain rfl := Option.some_inj.mp hg
      exact hnodup
    · rw [get?_set_other _ _ _ _ hj] at hg
      exact inodup j q hg
  · intro j q l hg hl k hk
    dsimp only at hg hl
    by_cases hj : j = s.currentQuestionIndex.toNat
    · subst hj
      rw [get?_set_self2 _ _ _ hidx] at hg
      obtain rfl := Option.some_inj.mp hg
      rw [addAt_get_self id hl0] at hl
      obtain rfl := Option.some_inj.mp hl
      rcases hkeys k hk with hin | rfl
      · exact List.mem_append_left _ (isub _ curQ l0 hget hl0 k hin)
      · exact List.mem_append_right _ (List.mem_singleton_self _)
    · rw [get?_set_other _ _ _ _ hj] at hg
      rw [addAt_get_ne _ _ _ _ hj] at hl
      exact isub j q l hg hl k hk
  · intro q l hgc hl k hk
    dsimp only at hl hk
    rw [addAt_get_self id hl0] at hl
    obtain rfl := Option.some_inj.mp hl
    rcases hstu k hk with hin | rfl
    · exact List.mem_append_left _ (icur curQ l0 hq hl0 k hin)
    · exact List.mem_append_right _ (List.mem_singleton_self _)

/-- Updating the current question's answers with keys drawn from the old
answer keys or the present students, ghost unchanged (explanation updates). -/
theorem interactorInv_update_cur_noghost {s : Session} {ls : List (List String)}
    {curQ : Question}
    (inv : InteractorInv s ls) (hq : getCurrentQuestion s = some curQ)
    (newAns : List (String × Answer))
    (hkeys : ∀ k, k ∈ jsKeys newAns → k ∈ jsKeys curQ.answers ∨ k ∈ jsKeys s.students)
    (hnodup : (jsKeys newAns).Nodup) :
    InteractorInv (setCurrentQuestion s { curQ with answers := newAns }) ls := by
  obtain ⟨h0, hltI, hget⟩ := getCurrentQuestion_eq_some.mp hq
  obtain ⟨ilen, istu, inodup, isub, icur⟩ := inv
  have hidx : s.currentQuestionIndex.toNat < s.questions.length := by omega
  have hl0x : ∃ l0, ls.get? s.currentQuestionIndex.toNat = some l0 := by
    rcases hx : ls.get? s.currentQuestionIndex.toNat with _ | l0
    · have := List.get?_eq_none.mp hx
      omega
    · exact ⟨l0, rfl⟩
  obtain ⟨l0, hl0⟩ := hl0x
  refine ⟨?_, istu, ?_, ?_, ?_⟩
  · simp only [setCurrentQuestion, List.length_set]
    exact ilen
  · intro j q hg
    simp only [setCurrentQuestion] at hg
    by_cases hj : j = s.currentQuestionIndex.toNat
    · subst hj
      rw [get?_set_self2 _ _ _ hidx] at hg
      obtain rfl := Option.some_inj.mp hg
      exact hnodup
    · rw [get?_set_other _ _ _ _ hj] at hg
      exact inodup j q hg
  · intro j q l hg hl k hk
    simp only [setCurrentQuestion] at hg hl
    by_cases hj : j = s.currentQuestionIndex.toNat
    · subst hj
      rw [get?_set_self2 _ _ _ hidx] at hg
      obtain rfl := Option.some_inj.mp hg
      rcases hkeys k hk with hin | hin
      · exact isub _ curQ l hget hl k hin
      · exact icur curQ l hq hl k hin
    · rw [get?_set_other _ _ _ _ hj] at hg
      exact isub j q l hg hl k hk
  · intro q l hgc hl k hk
    simp only [setCurrentQuestion] at hl hk
    exact icur curQ l hq hl k hk

/-- Appending a new question whose answer keys are exactly the present
student ids, with the matching ghost entry appended. -/
theorem interactorInv_append {s : Session} {ls : List (List String)}
    (inv : InteractorInv s ls) (obj : Question)
    (hobj : jsKeys obj.answers = jsKeys s.students) :
    InteractorInv
      { s with
        questions := s.questions ++ [obj],
        currentQuestionIndex := (s.questions.length : Int) }
      (ls ++ [jsKeys s.students]) := by
  obtain ⟨ilen, istu, inodup, isub, icur⟩ := inv
  refine ⟨by simp [ilen], istu, ?_, ?_, ?_⟩
  · intro j q hg
    dsimp only at hg
    by_cases hj : j = s.questions.length
    · subst hj
      rw [List.get?_eq_getElem?, List.getElem?_concat_length] at hg
      obtain rfl := Option.some_inj.mp hg
      rw [hobj]
      exact istu
    · have hlt : j < s.questions.length := by
        have := lt_of_get?_eq_some hg
        simp only [List.length_append, List.length_cons, List.length_nil] at this
        omega
      rw [get?_append_left hlt] at hg
      exact inodup j q hg
  · intro j q l hg hl k hk
    dsimp only at hg hl
    by_cases hj : j = s.questions.length
    · subst hj
      rw [List.get?_eq_getElem?, List.getElem?_concat_length] at hg
      obtain rfl := Option.some_inj.mp hg
      rw [show s.questions.length = ls.length from ilen.symm, List.get?_eq_getElem?,
        List.getElem?_concat_length] at hl
      obtain rfl := Option.some_inj.mp hl
      rw [hobj] at hk
      exact hk
    · have hlt : j < s.questions.length := by
        have := lt_of_get?_eq_some hg
        simp only [List.length_append, List.length_cons, List.length_nil] at this
        omega
      rw [get?_append_left hlt] at hg
      rw [get?_append_left (by omega)] at hl
      exact isub j q l hg hl k hk
  · intro q l hgc hl k hk
    dsimp only at hl hk
    rw [show ((s.questions.length : Int)).toNat = ls.length by omega, List.get?_eq_getElem?,
      List.getElem?_concat_length] at hl
    obtain rfl := Option.some_inj.mp hl
    exact hk

/-! ## `RegGhostInv` preservation -/

theorem regGhostInv_step (reg : Registry) (g : Ghost) (ws : Nat) (ts : String)
    (msg : ClientMsg) (h : RegGhostInv reg g) :
    RegGhostInv (handleMessage reg ws ts msg).1 (ghostStep reg g msg) := by
  cases msg with
  | teacherCreateSession code =>
      intro c2 s2 hs2
      simp only [handleMessage, ghostStep] at hs2 ⊢
      by_cases hc : c2 = code
      · subst hc
        rw [jsGet_jsSet_self] at hs2
        obtain rfl := Option.some_inj.mp hs2
        exact ⟨[], jsGet_jsSet_self _ _ _, interactorInv_fresh _⟩
      · rw [jsGet_jsSet_ne _ _ hc] at hs2
        obtain ⟨ls, hls, inv⟩ := h c2 s2 hs2
        exact ⟨ls, by rw [jsGet_jsSet_ne _ _ hc]; exact hls, inv⟩
  | teacherStartMCQ code txt opts =>
      intro c2 s2 hs2
      simp only [handleMessage, ghostStep] at hs2 ⊢
      rcases ho : jsGet reg code with _ | s <;> simp only [ho] at hs2 ⊢
      · exact h c2 s2 hs2
      · by_cases hc : c2 = code
        · subst hc
          rw [jsGet_jsSet_self] at hs2
          obtain rfl := Option.some_inj.mp hs2
          obtain ⟨ls, hls, inv⟩ := h c2 s ho
          refine ⟨ls ++ [jsKeys s.students], ?_, ?_⟩
          · rw [jsGet_jsModify_self, hls]
            rfl
          · have hfields := markPrevDone_fields { s with stage := SStage.MCQ }
            dsimp only at hfields
            have inv2 : InteractorInv (markPrevDone { s with stage := SStage.MCQ }) ls :=
              interactorInv_congr inv (fun j => markPrevDone_answers _ j)
                hfields.2.2.2.2 hfields.2.2.2.1 hfields.2.2.1
            have happ := interactorInv_append inv2
              { questionNumber :=
                  (markPrevDone { s with stage := SStage.MCQ }).questions.length + 1,
                questionText := jsOrEmpty txt, mcqOptions := opts, stage := QStage.MCQ,
                answers :=
                  (markPrevDone { s with stage := SStage.MCQ }).students.map (fun p =>
                    (p.1, { username := p.2.username, mcqAnswer := none, explanation := "" })) }
              (jsKeys_map_entry _ _)
            rw [show (jsKeys s.students : List String) =
                jsKeys (markPrevDone { s with stage := SStage.MCQ }).students from
                by rw [hfields.2.2.2.1]]
            exact happ
        · rw [jsGet_jsSet_ne _ _ hc] at hs2
          obtain ⟨ls, hls, inv⟩ := h c2 s2 hs2
          exact ⟨ls, by rw [jsGet_jsModify_ne _ _ hc]; exact hls, inv⟩
  | teacherNextExplanation code =>
      intro c2 s2 hs2
      simp only [handleMessage, ghostStep] at hs2 ⊢
      rcases ho : jsGet reg code with _ | s <;> simp only [ho] at hs2
      · exact h c2 s2 hs2
      · by_cases hc : c2 = code
        · subst hc
          rw [jsGet_jsSet_self] at hs2
          obtain ⟨ls, hls, inv⟩ := h c2 s ho
          refine ⟨ls, hls, ?_⟩
          split at hs2
          · rename_i curQ hq
            rw [getCurrentQuestion_stage] at hq
            obtain ⟨hx0, hxl, hxget⟩ := getCurrentQuestion_eq_some.mp hq
            split at hs2
            · obtain rfl := Option.some_inj.mp hs2
              exact interactorInv_congr inv
                (set_answers_map _ _ curQ _ hxget rfl) (by simp [setCurrentQuestion]) rfl rfl
            · obtain rfl := Option.some_inj.mp hs2
              exact interactorInv_congr inv (fun j => rfl) rfl rfl rfl
          · rename_i hq
            obtain rfl := Option.some_inj.mp hs2
            exact interactorInv_congr inv (fun j => rfl) rfl rfl rfl
        · rw [jsGet_jsSet_ne _ _ hc] at hs2
          exact h c2 s2 hs2
  | teacherStopQuiz code =>
      intro c2 s2 hs2
      simp only [handleMessage, ghostStep] at hs2 ⊢
      rcases ho : jsGet reg code with _ | s <;> simp only [ho] at hs2
      · exact h c2 s2 hs2
      · by_cases hc : c2 = code
        · subst hc
          rw [jsGet_jsSet_self] at hs2
          obtain rfl := Option.some_inj.mp hs2
          obtain ⟨ls, hls, inv⟩ := h c2 s ho
          exact ⟨ls, hls, interactorInv_congr inv (fun j => rfl) rfl rfl rfl⟩
        · rw [jsGet_jsSet_ne _ _ hc] at hs2
          exact h c2 s2 hs2
  | teacherClosePage code =>
      intro c2 s2 hs2
      simp only [handleMessage, ghostStep] at hs2 ⊢
      rcases ho : jsGet reg code with _ | s <;> simp only [ho] at hs2 ⊢
      · exact h c2 s2 hs2
      · by_cases hc : c2 = code
        · subst hc
          rw [jsGet_jsDelete_self] at hs2
          cases hs2
        · rw [jsGet_jsDelete_ne _ hc, jsGet_jsSet_ne _ _ hc] at hs2
          obtain ⟨ls, hls, inv⟩ := h c2 s2 hs2
          exact ⟨ls, by rw [jsGet_jsDelete_ne _ hc]; exact hls, inv⟩
  | teacherDownloadCSV code =>
      intro c2 s2 hs2
      simp only [handleMessage, ghostStep] at hs2 ⊢
      rcases ho : jsGet reg code with _ | s <;> simp only [ho] at hs2 <;>
        exact h c2 s2 hs2
  | teacherRejoinSession code =>
      intro c2 s2 hs2
      simp only [handleMessage, ghostStep] at hs2 ⊢
      rcases ho : jsGet reg code with _ | s <;> simp only [ho] at hs2
      · exact h c2 s2 hs2
      · by_cases hc : c2 = code
        · subst hc
          rw [jsGet_jsSet_self] at hs2
          obtain rfl := Option.some_inj.mp hs2
          obtain ⟨ls, hls, inv⟩ := h c2 s ho
          exact ⟨ls, hls, interactorInv_congr inv (fun j => rfl) rfl rfl rfl⟩
        · rw [jsGet_jsSet_ne _ _ hc] at hs2
          exact h c2 s2 hs2
  | studentJoinSession code u fid =>
      intro c2 s2 hs2
      simp only [handleMessage, ghostStep] at hs2 ⊢
      rcases ho : jsGet reg code with _ | s <;> simp only [ho] at hs2 ⊢
      · exact h c2 s2 hs2
      · rcases hq : getCurrentQuestion s with _ | curQ
        · have hq2 := (getCurrentQuestion_students s
            (jsSet s.students fid { username := u, ws := ws })).trans hq
          simp only [hq2] at hs2
          by_cases hc : c2 = code
          · subst hc
            rw [jsGet_jsSet_self] at hs2
            obtain rfl := Option.some_inj.mp hs2
            obtain ⟨ls, hls, inv⟩ := h c2 s ho
            obtain ⟨ilen, istu, inodup, isub, icur⟩ := inv
            refine ⟨ls, hls, ilen,
              jsKeys_jsSet_nodup _ _ _ istu, inodup, isub, ?_⟩
            intro q l hgc hl k hk
            rw [hq2] at hgc
            cases hgc
          · rw [jsGet_jsSet_ne _ _ hc] at hs2
            obtain ⟨ls, hls, inv⟩ := h c2 s2 hs2
            exact ⟨ls, hls, inv⟩
        · have hq2 := (getCurrentQuestion_students s
            (jsSet s.students fid { username := u, ws := ws })).trans hq
          simp only [hq2] at hs2
          by_cases hc : c2 = code
          · subst hc
            rw [jsGet_jsSet_self] at hs2
            obtain rfl := Option.some_inj.mp hs2
            obtain ⟨ls, hls, inv⟩ := h c2 s ho
            obtain ⟨hx0, hxl, hxget⟩ := getCurrentQuestion_eq_some.mp hq
            refine ⟨addAt ls s.currentQuestionIndex.toNat fid, ?_, ?_⟩
            · show jsGet (jsModify g c2 fun ls =>
                  addAt ls s.currentQuestionIndex.toNat fid) c2 =
                some (addAt ls s.currentQuestionIndex.toNat fid)
              rw [jsGet_jsModify_self, hls]
              rfl
            · exact interactorInv_update_cur inv hq _ fid
                (fun k hk => (mem_jsKeys_jsSet _ _ _ _).mp hk)
                (jsKeys_jsSet_nodup _ _ _ (inv.answers_nodup _ curQ hxget))
                _ (fun k hk => (mem_jsKeys_jsSet _ _ _ _).mp hk)
                (jsKeys_jsSet_nodup _ _ _ inv.students_nodup)
          · rw [jsGet_jsSet_ne _ _ hc] at hs2
            obtain ⟨ls, hls, inv⟩ := h c2 s2 hs2
            refine ⟨ls, ?_, inv⟩
            show jsGet (jsModify g code fun ls =>
                addAt ls s.currentQuestionIndex.toNat fid) c2 = some ls
            rw [jsGet_jsModify_ne _ _ hc]
            exact hls
  | studentSubmitMCQ code sid ans =>
      intro c2 s2 hs2
      simp only [handleMessage, ghostStep] at hs2 ⊢
      rcases ho : jsGet reg code with _ | s <;> simp only [ho] at hs2 ⊢
      · exact h c2 s2 hs2
      · rcases hq : getCurrentQuestion s with _ | curQ <;> simp only [hq] at hs2 ⊢
        · exact h c2 s2 hs2
        · obtain ⟨hx0, hxl, hxget⟩ := getCurrentQuestion_eq_some.mp hq
          by_cases hc : c2 = code
          · subst hc
            obtain ⟨ls, hls, inv⟩ := h c2 s ho
            split at hs2
            · -- no slot and unknown student: registry unchanged, ghost extended
              rename_i hslot
              have hs3 : jsGet reg c2 = some s2 := hs2
              rw [ho] at hs3
              obtain rfl := Option.some_inj.mp hs3
              refine ⟨addAt ls s.currentQuestionIndex.toNat sid, ?_, ?_⟩
              · rw [jsGet_jsModify_self, hls]
                rfl
              · exact interactorInv_addAt _ _ inv
            · rename_i ans1 hslot
              rw [jsGet_jsSet_self] at hs2
              obtain rfl := Option.some_inj.mp hs2
              refine ⟨addAt ls s.currentQuestionIndex.toNat sid, ?_, ?_⟩
              · rw [jsGet_jsModify_self, hls]
                rfl
              · have hkeys : ∀ k, k ∈ jsKeys ans1 →
                    k ∈ jsKeys curQ.answers ∨ k = sid := by
                  intro k hk
                  split at hslot
                  · obtain rfl := Option.some_inj.mp hslot
                    exact Or.inl hk
                  · split at hslot
                    · cases hslot
                    · obtain rfl := Option.some_inj.mp hslot
                      exact (mem_jsKeys_jsSet _ _ _ _).mp hk
                have hnodup : (jsKeys ans1).Nodup := by
                  split at hslot
                  · obtain rfl := Option.some_inj.mp hslot
                    exact inv.answers_nodup _ curQ hxget
                  · split at hslot
                    · cases hslot
                    · obtain rfl := Option.some_inj.mp hslot
                      exact jsKeys_jsSet_nodup _ _ _ (inv.answers_nodup _ curQ hxget)
                exact interactorInv_update_cur inv hq _ sid
                  (fun k hk => hkeys k (by rwa [jsKeys_jsModify] at hk))
                  (by rw [jsKeys_jsModify]; exact hnodup)
                  _ (fun k hk => Or.inl hk) inv.students_nodup
          · split at hs2
            · rename_i hslot
              have hs3 : jsGet reg c2 = some s2 := hs2
              obtain ⟨ls, hls, inv⟩ := h c2 s2 hs3
              exact ⟨ls, by rw [jsGet_jsModify_ne _ _ hc]; exact hls, inv⟩
            · rename_i ans1 hslot
              rw [jsGet_jsSet_ne _ _ hc] at hs2
              obtain ⟨ls, hls, inv⟩ := h c2 s2 hs2
              exact ⟨ls, by rw [jsGet_jsModify_ne _ _ hc]; exact hls, inv⟩
  | studentExplanationUpdate code sid etxt =>
      intro c2 s2 hs2
      simp only [handleMessage, ghostStep] at hs2 ⊢
      rcases ho : jsGet reg code with _ | s <;> simp only [ho] at hs2 ⊢
      · exact h c2 s2 hs2
      · rcases hq : getCurrentQuestion s with _ | curQ <;> simp only [hq] at hs2 ⊢
        · exact h c2 s2 hs2
        · obtain ⟨hx0, hxl, hxget⟩ := getCurrentQuestion_eq_some.mp hq
          by_cases hc : c2 = code
          · subst hc
            obtain ⟨ls, hls, inv⟩ := h c2 s ho
            split at hs2
            · rename_i hslot
              have hs3 : jsGet reg c2 = some s2 := hs2
              rw [ho] at hs3
              obtain rfl := Option.some_inj.mp hs3
              exact ⟨ls, hls, inv⟩
            · rename_i ans1 hslot
              rw [jsGet_jsSet_self] at hs2
              obtain rfl := Option.some_inj.mp hs2
              refine ⟨ls, hls, ?_⟩
              have hkeys : ∀ k, k ∈ jsKeys ans1 →
                  k ∈ jsKeys curQ.answers ∨ k ∈ jsKeys s.students := by
                intro k hk
                split at hslot
                · obtain rfl := Option.some_inj.mp hslot
                  exact Or.inl hk
                · split at hslot
                  · cases hslot
                  · rename_i stuInfo hstu
                    obtain rfl := Option.some_inj.mp hslot
                    rcases (mem_jsKeys_jsSet _ _ _ _).mp hk with hin | rfl
                    · exact Or.inl hin
                    · exact Or.inr (mem_jsKeys_of_get_some _ hstu)
              have hnodup : (jsKeys ans1).Nodup := by
                split at hslot
                · obtain rfl := Option.some_inj.mp hslot
                  exact inv.answers_nodup _ curQ hxget
                · split at hslot
                  · cases hslot
                  · obtain rfl := Option.some_inj.mp hslot
                    exact jsKeys_jsSet_nodup _ _ _ (inv.answers_nodup _ curQ hxget)
              exact interactorInv_update_cur_noghost inv hq _
                (fun k hk => hkeys k (by rwa [jsKeys_jsModify] at hk))
                (by rw [jsKeys_jsModify]; exact hnodup)
          · split at hs2
            · rename_i hslot
              have hs3 : jsGet reg c2 = some s2 := hs2
              exact h c2 s2 hs3
            · rename_i ans1 hslot
              rw [jsGet_jsSet_ne _ _ hc] at hs2
              exact h c2 s2 hs2

theorem regGhostInv_run (msgs : List Inbound) :
    ∀ reg g, RegGhostInv reg g →
      RegGhostInv (runMsgs reg msgs) (ghostRun reg g msgs) := by
  induction msgs with
  | nil => intro reg g h; exact h
  | cons x rest ih =>
      intro reg g h
      exact ih _ _ (regGhostInv_step reg g x.ws x.ts x.msg h)

theorem regGhostInv_init : RegGhostInv [] [] := by
  intro code s hs
  simp [jsGet] at hs

theorem nodup_subset_length_le {l1 l2 : List String} (hnd : l1.Nodup)
    (hsub : ∀ k ∈ l1, k ∈ l2) : l1.length ≤ l2.dedup.length := by
  have h2 : l1.toFinset ⊆ l2.toFinset := by
    intro x hx
    rw [List.mem_toFinset] at hx ⊢
    exact hsub x hx
  have h3 := Finset.card_le_card h2
  rw [List.card_toFinset, List.card_toFinset, hnd.dedup] at h3
  exact h3

/-! ## Claim C8: submit overwrites, and the answer-count bound -/

/-- C8: submitting an MCQ answer for a participant who already has an answer
record on the current question overwrites that single record in place — the
key list (and hence the length of the answer list, which is what the
coordinator view emits) is unchanged and no duplicate entry is created; and
along any run of the system from the empty registry, every question's number
of answer records is bounded by the number of distinct participant ids that
were present at its creation, joined while it was current, or submitted to it
while it was current (the ghost interactor sets of `ghostRun`). -/
theorem submit_overwrite_and_bound :
    (∀ reg code s q sid a ws ts ans, jsGet reg code = some s →
      getCurrentQuestion s = some q → jsGet q.answers sid = some a →
      ∃ s2 q2,
        jsGet (handleMessage reg ws ts (.studentSubmitMCQ code sid ans)).1 code = some s2 ∧
        getCurrentQuestion s2 = some q2 ∧
        jsKeys q2.answers = jsKeys q.answers ∧
        q2.answers.length = q.answers.length ∧
        jsGet q2.answers sid = some { a with mcqAnswer := some ans }) ∧
    (∀ code s q, getCurrentQuestion s = some q →
      (teacherSnapshot code s).answers.length = q.answers.length) ∧
    (∀ msgs code s j q, jsGet (runMsgs [] msgs) code = some s →
      s.questions.get? j = some q →
      ∃ ls l, jsGet (ghostRun [] [] msgs) code = some ls ∧ ls.get? j = some l ∧
        q.answers.length ≤ l.dedup.length) := by
  refine ⟨?_, ?_, ?_⟩
  · intro reg code s q sid a ws ts ans ho hq ha
    obtain ⟨hx0, hxl, hxget⟩ := getCurrentQuestion_eq_some.mp hq
    simp only [handleMessage, ho, hq, ha]
    refine ⟨setCurrentQuestion s
        { q with
          answers := jsModify q.answers sid (fun x => { x with mcqAnswer := some ans }) },
      { q with
        answers := jsModify q.answers sid (fun x => { x with mcqAnswer := some ans }) },
      jsGet_jsSet_self _ _ _, ?_, ?_, ?_, ?_⟩
    · refine getCurrentQuestion_eq_some.mpr ⟨hx0, ?_, ?_⟩
      · simp only [setCurrentQuestion, List.length_set]
        omega
      · simp only [setCurrentQuestion]
        exact get?_set_self2 _ _ _ (by omega)
    · exact jsKeys_jsModify _ _ _
    · exact length_jsModify _ _ _
    · rw [jsGet_jsModify_self, ha]
      rfl
  · intro code s q hq
    simp [teacherSnapshot, hq, jsValues]
  · intro msgs code s j q hs hj
    obtain ⟨ls, hls, inv⟩ := regGhostInv_run msgs [] [] regGhostInv_init code s hs
    have hlt : j < s.questions.length := lt_of_get?_eq_some hj
    have hlx : ∃ l, ls.get? j = some l := by
      rcases hx : ls.get? j with _ | l
      · have := List.get?_eq_none.mp hx
        have := inv.len_eq
        omega
      · exact ⟨l, rfl⟩
    obtain ⟨l, hl⟩ := hlx
    refine ⟨ls, l, hls, hl, ?_⟩
    have hnd := inv.answers_nodup j q hj
    have hsub := inv.keys_sub j q l hj hl
    have : (jsKeys q.answers).length = q.answers.length := by
      simp [jsKeys]
    rw [← this]
    exact nodup_subset_length_le hnd hsub

/-- A question already holding one answer record, for the C8 witness. -/
def witJoinedQ : Question :=
  { questionNumber := 1, questionText := "Q1", mcqOptions := 4, stage := .MCQ,
    answers := [("aa11bb", { username := "Sam", mcqAnswer := some 2, explanation := "" })] }

/-- A session whose current question is `witJoinedQ` with the answering
participant present, for the C8 witness. -/
def witJoined : Session :=
  { teacher := some 1, stage := .MCQ, currentQuestionIndex := 0,
    questions := [witJoinedQ],
    students := [("aa11bb", { username := "Sam", ws := 2 })] }

/-- A concrete run for the C8 witness: create, first question, one join while
the question is current, then two MCQ submissions by the same participant. -/
def wrun : List Inbound :=
  [{ ws := 1, ts := "t0", msg := .teacherCreateSession "AAAAAA" },
   { ws := 1, ts := "t1", msg := .teacherStartMCQ "AAAAAA" "Q1" 4 },
   { ws := 2, ts := "t2", msg := .studentJoinSession "AAAAAA" "Sam" "aa11bb" },
   { ws := 2, ts := "t3", msg := .studentSubmitMCQ "AAAAAA" "aa11bb" 2 },
   { ws := 2, ts := "t4", msg := .studentSubmitMCQ "AAAAAA" "aa11bb" 3 }]

/-- C8 witness: the overwrite fact at a concrete session where the
participant already holds a record, and the bound along the concrete run
`wrun` (one record, interactor list of size one after dedup). -/
theorem submit_overwrite_and_bound_witness :
    (∃ s2 q2,
      jsGet (handleMessage [("AAAAAA", witJoined)] 2 "ts"
        (.studentSubmitMCQ "AAAAAA" "aa11bb" 3)).1 "AAAAAA" = some s2 ∧
      getCurrentQuestion s2 = some q2 ∧
      jsKeys q2.answers = jsKeys witJoinedQ.answers ∧
      q2.answers.length = witJoinedQ.answers.length ∧
      jsGet q2.answers "aa11bb" =
        some { username := "Sam", mcqAnswer := some 3, explanation := "" }) ∧
    (∃ s q, jsGet (runMsgs [] wrun) "AAAAAA" = some s ∧
      s.questions.get? 0 = some q ∧
      ∃ ls l, jsGet (ghostRun [] [] wrun) "AAAAAA" = some ls ∧ ls.get? 0 = some l ∧
        q.answers.length ≤ l.dedup.length) := by
  constructor
  · exact (submit_overwrite_and_bound.1 [("AAAAAA", witJoined)] "AAAAAA" witJoined
      witJoinedQ "aa11bb" { username := "Sam", mcqAnswer := some 2, explanation := "" }
      2 "ts" 3 rfl rfl rfl)
  · refine ⟨_, _, rfl, rfl, ?_⟩
    exact submit_overwrite_and_bound.2.2 wrun "AAAAAA" _ 0 _ rfl rfl

end MCQServer
